import Mathlib

/-!
Verification of the pg_seldump planning core (`seldump/dumper.py`,
`seldump/dumprule.py`, `seldump/dbobjects.py`) against its natural-language
specification.

The Python source is shallowly embedded: every class becomes a structure,
every method a Lean function; dictionaries keyed by oid become total
functions `Nat → RuleMatch` updated pointwise, Python lists become `List`,
and code that can raise becomes `Except`/`Option`.  Recursive procedures
whose termination relies on a growing visited set are given an explicit
fuel argument; exhausting the fuel yields a distinguished error value, so a
run that returns a value is exactly a run of the Python code.
-/

namespace Seldump

set_option maxRecDepth 10000

/-- The actions of `DumpRule` (`dumprule.py`): the string constants
`ACTION_DUMP`, `ACTION_SKIP`, `ACTION_ERROR`, `ACTION_REFERENCED` ("ref"),
`ACTION_UNKNOWN`. -/
inductive Action where
  | unknown
  | skip
  | dump
  | error
  | ref
deriving DecidableEq, Repr

/-- The dumpable object kinds (`consts.py` / `dbobjects.py` registrations):
`Table`, `PartitionedTable` (a subclass of `Table`), `Sequence`,
`MaterializedView`. -/
inductive Kind where
  | table
  | partTable
  | sequence
  | matview
deriving DecidableEq, Repr

/-- The display string of a kind (`consts.PG_KINDS` values). -/
def Kind.str : Kind → String
  | .table => "table"
  | .partTable => "partitioned table"
  | .sequence => "sequence"
  | .matview => "materialized view"

/-- `isinstance(obj, Table)`: tables and partitioned tables. -/
def Kind.isTable : Kind → Bool
  | .table => true
  | .partTable => true
  | _ => false

/-- `dbobjects.Column` (the attributes the planner reads). -/
structure Column where
  name : String
  type : String
deriving DecidableEq, Repr

/-- `dbobjects.ForeignKey`. -/
structure ForeignKey where
  name : String
  table_oid : Nat
  table_cols : List String
  ftable_oid : Nat
  ftable_cols : List String
deriving DecidableEq, Repr

/-- `dbobjects.DbObject` together with the `Table` attributes (`columns`,
`fkeys`, `ref_fkeys`); for sequences and materialised views those lists are
empty.  `_cols_by_name` is not represented: it maps each added column's name
to that column, so a name is a key of it exactly when some element of
`columns` carries that name. -/
structure DbObject where
  oid : Nat
  schema : String
  name : String
  kind : Kind
  extension : Option String := none
  extcondition : Option String := none
  columns : List Column := []
  fkeys : List ForeignKey := []
  ref_fkeys : List ForeignKey := []
deriving DecidableEq, Repr

/-- The regex `^[a-z][a-z0-9_]*$` used by `DbObject.escape_idents`. -/
def isPlainIdent (s : String) : Bool :=
  match s.data with
  | [] => false
  | c :: cs => c.isLower && cs.all (fun d => d.isLower || d.isDigit || d == '_')

/-- One token of `DbObject.escape_idents`: wrap in double quotes, doubling
embedded quotes, unless it is a plain lowercase identifier. -/
def escapeIdent (s : String) : String :=
  if isPlainIdent s then s else "\"" ++ (s.replace "\"" "\"\"") ++ "\""

/-- `str(obj)` = `DbObject.escape_idents(self.schema, self.name)`. -/
def DbObject.str (o : DbObject) : String :=
  escapeIdent o.schema ++ "." ++ escapeIdent o.name

/-- `Table.add_column`: raises `ValueError` when a column with the same name
was already added, otherwise appends the column (and records it in
`_cols_by_name`). -/
def DbObject.add_column (t : DbObject) (c : Column) : Except String DbObject :=
  if t.columns.any (fun c0 => c0.name == c.name) then
    .error ("the table " ++ t.str ++ " has already a column called " ++ c.name)
  else
    .ok { t with columns := t.columns ++ [c] }

/-- `Table.get_column`: the `_cols_by_name` lookup; since one column per name
is ever stored, this is the unique column with that name, if any. -/
def DbObject.get_column (t : DbObject) (name : String) : Option Column :=
  t.columns.find? (fun c => c.name == name)

/-- Python truthiness of an optional string (`None` and `""` are falsy). -/
def truthyStr : Option String → Bool
  | none => false
  | some s => !(s == "")

/-- Python truthiness of an optional line number (`None` and `0` are falsy). -/
def truthyNat : Option Nat → Bool
  | none => false
  | some n => !(n == 0)

/-- `dumprule.DumpRule`: selector attributes, score adjustment and the action
with its options.  The compiled regexes `names_re`/`schemas_re` are embedded
as opaque-to-the-spec boolean predicates standing for `re.match`. -/
structure DumpRule where
  names : List String := []
  names_re : Option (String → Bool) := none
  schemas : List String := []
  schemas_re : Option (String → Bool) := none
  kinds : List Kind := []
  adjust_score : Int := 0
  action : Action := .dump
  no_columns : List String := []
  replace : List (String × String) := []
  filter : Option String := none
  filename : Option String := none
  lineno : Option Nat := none

/-- `DumpRule.pos`: `"%s:%s" % (filename, lineno)`; Python prints `None` for
a missing value. -/
def DumpRule.pos (r : DumpRule) : String :=
  (match r.filename with | some s => s | none => "None") ++ ":" ++
    (match r.lineno with | some n => toString n | none => "None")

/-- `DumpRule.score`: `adjust_score`, plus 1000 for an exact name set, 500
for a name regex, 100 for an exact schema set, 50 for a schema regex, 10 for
a kind restriction. -/
def DumpRule.score (r : DumpRule) : Int :=
  r.adjust_score
    + (if !r.names.isEmpty then 1000 else 0)
    + (if r.names_re.isSome then 500 else 0)
    + (if !r.schemas.isEmpty then 100 else 0)
    + (if r.schemas_re.isSome then 50 else 0)
    + (if !r.kinds.isEmpty then 10 else 0)

/-- `DumpRule.match`: the sequence of early-return selector checks. -/
def DumpRule.applies (r : DumpRule) (obj : DbObject) : Bool :=
  if !r.names.isEmpty && !r.names.contains obj.name then false
  else if (match r.names_re with | some f => !f obj.name | none => false) then false
  else if !r.schemas.isEmpty && !r.schemas.contains obj.schema then false
  else if (match r.schemas_re with | some f => !f obj.schema | none => false) then false
  else if !r.kinds.isEmpty && !r.kinds.contains obj.kind then false
  else true

/-- The error strings accumulated on a match, as structured values; each
constructor stands for one exact Python format string (the constructors are
injective and the format strings pairwise distinct, so this is a faithful
image of the string messages):
`errorRuleAt f l` = `"the object matches the error rule at %s:%s" % (f, l)`;
`errorRule` = `"the object matches an error rule"`;
`noSuchColumnNoColumns c` = `"the table doesn't have the column '%s' specified in 'no_columns'" % c`;
`noSuchColumnReplace c` = `"the table doesn't have the column '%s' specified in 'replace'" % c`;
`noColumnLeft` = `"the table has no column left to dump: you should skip it"`. -/
inductive DumpErr where
  | errorRuleAt (filename : String) (lineno : Nat)
  | errorRule
  | noSuchColumnNoColumns (col : String)
  | noSuchColumnReplace (col : String)
  | noColumnLeft
deriving DecidableEq, Repr

/-- `dumprule.RuleMatch`: the per-object decision.  The generated statements
(`query`, `copy_statement`, `import_statement`) are modelled as outputs of
the statement generator instead of mutable fields. -/
structure RuleMatch where
  obj : DbObject
  action : Action
  no_columns : List String := []
  replace : List (String × String) := []
  filter : Option String := none
  referenced_by : List ForeignKey := []
  errors : List DumpErr := []
deriving DecidableEq, Repr

/-- `RuleMatch.from_rule`: copy the rule's action and options; an `error`
action appends the diagnostic message up front (`if rule.filename and
rule.lineno` picks the located variant). -/
def RuleMatch.from_rule (obj : DbObject) (r : DumpRule) : RuleMatch :=
  { obj := obj, action := r.action, no_columns := r.no_columns,
    replace := r.replace, filter := r.filter,
    errors :=
      if r.action = .error then
        [if truthyStr r.filename && truthyNat r.lineno then
            DumpErr.errorRuleAt (r.filename.getD "") (r.lineno.getD 0)
          else
            DumpErr.errorRule]
      else [] }

/-- Ordering used by `rules.sort(key=attrgetter("score"), reverse=True)`:
descending score. -/
def scoreGE (a b : DumpRule) : Prop := b.score ≤ a.score

instance : DecidableRel scoreGE :=
  fun a b => inferInstanceAs (Decidable (b.score ≤ a.score))

instance : IsTotal DumpRule scoreGE := ⟨fun a b => le_total b.score a.score⟩

instance : IsTrans DumpRule scoreGE := ⟨fun _ _ _ h1 h2 => le_trans h2 h1⟩

/-- Python's `list.sort` is stable; a stable descending sort by score is an
insertion sort with the `scoreGE` comparison (an element is inserted before
the first strictly lower-scored one, after equal-scored earlier ones). -/
def sortByScoreDesc (l : List DumpRule) : List DumpRule :=
  List.insertionSort scoreGE l

/-- The `ConfigError` message of `Dumper.get_match` for an ambiguous match:
`"%s %s matches more than one rule: at %s and %s"`. -/
def ambiguousMsg (obj : DbObject) (r0 r1 : DumpRule) : String :=
  obj.kind.str ++ " " ++ obj.str ++ " matches more than one rule: at "
    ++ r0.pos ++ " and " ++ r1.pos

/-- `Dumper.get_match`: an extension object without a dump condition is
skipped outright; otherwise the matching rules are sorted by descending
score, a tie between the two best is a `ConfigError`, and the best rule
seeds the match (no matching rule gives action `unknown`).  Sorting the
empty candidate list gives the empty list, so the source's early return for
no candidates is the first branch of the match. -/
def getMatch (rules : List DumpRule) (obj : DbObject) : Except String RuleMatch :=
  if obj.extension.isSome && obj.extcondition.isNone then
    .ok { obj := obj, action := .skip }
  else
    match sortByScoreDesc (rules.filter (fun r => r.applies obj)) with
    | [] => .ok { obj := obj, action := .unknown }
    | [r0] => .ok (RuleMatch.from_rule obj r0)
    | r0 :: r1 :: _ =>
      if r0.score = r1.score then .error (ambiguousMsg obj r0 r1)
      else .ok (RuleMatch.from_rule obj r0)

/-- Python dictionary lookup on a mapping embedded as an association list
(configuration mappings have unique keys, so first match is the match). -/
def dictGet (d : List (String × String)) (k : String) : Option String :=
  (d.find? (fun p => p.1 == k)).map (fun p => p.2)

/-- Python `k in d` for the same mappings. -/
def dictHasKey (d : List (String × String)) (k : String) : Bool :=
  d.any (fun p => p.1 == k)

/-- Modelled from the spec: the Schema Graph class `Database` imported by
`dumper.py` from `seldump.database` is not part of the source snapshot (the
`database.py` present is an earlier `DbReader`).  Per the spec it owns all
database objects, keyed by OID, iterated in insertion order, and records the
sequence-usage edges (sequence oid, consuming table oid, column name) used by
`get_tables_using_sequence`. -/
structure Db where
  objects : List DbObject
  seqUsers : List (Nat × Nat × String) := []

/-- `db.get(oid=...)`: lookup by oid. -/
def Db.get (db : Db) (oid : Nat) : Option DbObject :=
  db.objects.find? (fun o => o.oid == oid)

/-- `db.get_tables_using_sequence(oid)`: the (table, column-name) pairs of
the tables consuming the sequence from a column default; edges whose table
is not in the graph are dropped (as in `DbReader.get_tables_using_sequence`). -/
def Db.getTablesUsingSequence (db : Db) (oid : Nat) : List (DbObject × String) :=
  db.seqUsers.filterMap (fun e =>
    if e.1 == oid then (db.get e.2.1).map (fun t => (t, e.2.2)) else none)

/-- The exceptions the embedded statement generator can raise:
`attributeError` is the `re.replace` `AttributeError` of `_get_filters`
(`re` has no function `replace`), `keyError` a missing-oid lookup, and
`outOfFuel` marks exhaustion of the embedding's fuel (not a Python
behaviour; the termination theorems show it is never returned with enough
fuel). -/
inductive PyErr where
  | attributeError
  | keyError
  | outOfFuel
deriving DecidableEq, Repr

/-- One output column of a generated select (`psycopg.sql` snippets):
`ident c` = the quoted identifier of column `c`; `paren e` = a `replace`
expression wrapped in parentheses (`"({})"`); `raw s` = a literal fragment
such as `sql.SQL("1")`; `star al` = `"{al}.*"`. -/
inductive SqlCol where
  | ident (name : String)
  | paren (expr : String)
  | raw (s : String)
  | star (al : String)
deriving DecidableEq, Repr

/-- The query tree of `seldump/query.py`, flattened into one inductive the
way the Python classes are one untyped node hierarchy:
`sqlCond s` = a raw SQL condition (`sql.SQL(...)` used as a predicate);
`and`/`or` = `query.And`/`query.Or`;
`exists_ q` = `query.Exists`;
`fkeyJoin fk src tgt` = `query.FkeyJoin(fkey=fk, from_=src, to=tgt)`;
`fromTable t al` = `query.FromEntry(table, alias=al)`;
`fromCTE name base rc al` = `query.FromEntry(query.RecursiveCTE(name, base_query=base, rec_cond=rc), alias=al)`;
`select cols src wh` = `query.Select(columns=cols, from_=src, where=wh)`. -/
inductive QNode where
  | sqlCond (s : String)
  | and (conds : List QNode)
  | or (conds : List QNode)
  | exists_ (q : QNode)
  | fkeyJoin (fkey : ForeignKey) (src : String) (tgt : String)
  | fromTable (t : DbObject) (al : String)
  | fromCTE (name : String) (base : QNode) (rec_cond : Option QNode) (al : String)
  | select (columns : List SqlCol) (src : QNode) (wh : Option QNode)
deriving Repr

/-- `select.from_` (the planner only reads it on `Select` nodes). -/
def QNode.selFrom : QNode → QNode
  | .select _ src _ => src
  | n => n

/-- `select.where` (the planner only reads it on `Select` nodes). -/
def QNode.selWhere : QNode → Option QNode
  | .select _ _ wh => wh
  | _ => none

/-- `from_entry.alias` (the planner only reads it on from nodes). -/
def QNode.fromAlias : QNode → String
  | .fromTable _ al => al
  | .fromCTE _ _ _ al => al
  | _ => ""

/-- `select.columns = cols` (the planner only assigns it on `Select` nodes). -/
def QNode.setColumns (cols : List SqlCol) : QNode → QNode
  | .select _ src wh => .select cols src wh
  | n => n

/-- `StatementsGenerator._maybe_op`: drop the `None`s, collapse an empty
list to `None` and a singleton to its element. -/
def maybeOp (op : List QNode → QNode) (conds : List (Option QNode)) : Option QNode :=
  match conds.filterMap id with
  | [] => none
  | [c] => some c
  | cs => some (op cs)

/-- `StatementsGenerator._maybe_and`. -/
def maybeAnd (conds : List (Option QNode)) : Option QNode :=
  maybeOp QNode.and conds

/-- `StatementsGenerator._maybe_or`. -/
def maybeOr (conds : List (Option QNode)) : Option QNode :=
  maybeOp QNode.or conds

/-- `StatementsGenerator._get_filters`.  When `table.extcondition` is truthy
the source evaluates `re.replace(r"(?i)^\s*where\s+", table.extcondition, "")`:
the `re` module has no function `replace`, so an `AttributeError` is raised
(even read as `re.sub`, the arguments are transposed: the condition would be
the replacement substituted into the empty string).  Otherwise the only
possible filter is the rule's `filter`, stripped. -/
def getFilters (table : DbObject) (m : RuleMatch) : Except PyErr (Option QNode) :=
  if truthyStr table.extcondition then .error .attributeError
  else
    .ok (maybeAnd
      (if truthyStr m.filter then [some (QNode.sqlCond ((m.filter.getD "").trim))] else []))

/-- `StatementsGenerator._get_dump_attrs`: skip `no_columns`, parenthesise
`replace` expressions (stripped), quote the rest. -/
def getDumpAttrs (table : DbObject) (m : RuleMatch) : List SqlCol :=
  table.columns.filterMap (fun col =>
    if m.no_columns.contains col.name then none
    else
      match dictGet m.replace col.name with
      | some expr => some (SqlCol.paren expr.trim)
      | none => some (SqlCol.ident col.name))

/-- The `Exists` predicate built by `StatementsGenerator._get_existence`
from the recursive select `subsel` of the referring table: `EXISTS (SELECT 1
FROM <subsel.from_> WHERE <FkeyJoin from subsel's alias to the current
alias> AND <subsel.where>)`. -/
def buildExistence (fkey : ForeignKey) (al : String) (subsel : QNode) : QNode :=
  QNode.exists_ (QNode.select [SqlCol.raw "1"] subsel.selFrom
    (maybeAnd [some (QNode.fkeyJoin fkey subsel.selFrom.fromAlias al), subsel.selWhere]))

/-- One iteration of the referrer loop of `_get_select`, abstracted over the
recursive call `rec` (instantiated with `getSelect` at the next fuel level):
a self-referential fkey is saved for the recursive CTE, a referring table
already on the path is skipped with a warning, and otherwise the `EXISTS`
subquery of `_get_existence` is appended to the where list. -/
def stepFkey (db : Db) (st : Nat → RuleMatch)
    (rec : DbObject → RuleMatch → List Nat → Nat → Except PyErr (QNode × Nat))
    (al : String) (seen1 : List Nat)
    (acc : List (Option QNode) × List ForeignKey × Nat) (fkey : ForeignKey) :
    Except PyErr (List (Option QNode) × List ForeignKey × Nat) :=
  if fkey.table_oid == fkey.ftable_oid then
    -- self-referential fkeys are dealt with later
    Except.ok (acc.1, acc.2.1 ++ [fkey], acc.2.2)
  else if seen1.contains fkey.table_oid then
    -- "not going recursive for now": warn and omit the branch
    Except.ok acc
  else
    match db.get fkey.table_oid with
    | none => Except.error PyErr.keyError
    | some ptable =>
      match rec ptable (st fkey.table_oid) seen1 acc.2.2 with
      | .error e => Except.error e
      | .ok (subsel, c') =>
        Except.ok (acc.1 ++ [some (buildExistence fkey al subsel)], acc.2.1, c')

/-- `StatementsGenerator._get_select` (with `_get_existence` inlined via
`stepFkey`).  The alias counter `self._alias_seq` is threaded through
(`ctr`); `seen` is the value-passed path set `(seen or set()) | {table.oid}`;
the fuel only decreases when recursing into a referring table, which the
source guards by `fkey.table_oid in seen`. -/
def getSelect (db : Db) (st : Nat → RuleMatch) :
    Nat → DbObject → RuleMatch → List Nat → Nat → Except PyErr (QNode × Nat)
  | 0, _, _, _, _ => .error .outOfFuel
  | fuel + 1, table, m, seen, ctr =>
    match getFilters table m with
    | .error e => .error e
    | .ok filt =>
      let al := "t" ++ toString ctr
      let seen1 := table.oid :: seen
      match m.referenced_by.foldlM
          (stepFkey db st (getSelect db st fuel) al seen1) ([filt], [], ctr + 1) with
      | .error e => .error e
      | .ok (whs, srfkeys, ctr2) =>
        let q := QNode.select [] (QNode.fromTable table al) (maybeOr whs)
        if srfkeys.isEmpty then .ok (q, ctr2)
        else
          .ok (QNode.select [] (QNode.fromCTE (al ++ "r")
                (q.setColumns [SqlCol.star al])
                (maybeOr (srfkeys.map (fun fk => some (QNode.fkeyJoin fk (al ++ "r") al))))
                (al ++ "r"))
              none,
            ctr2)

/-- `StatementsGenerator.make_query`: reset the alias sequence, build the
select, then populate its column list. -/
def makeQuery (db : Db) (st : Nat → RuleMatch) (fuel : Nat)
    (table : DbObject) (m : RuleMatch) : Except PyErr QNode :=
  match getSelect db st fuel table m [] 0 with
  | .error e => .error e
  | .ok (sel, _) => .ok (sel.setColumns (getDumpAttrs table m))

/-- The copy statement set by `set_copy_statement`: either the fast
`copy {table} ({attrs}) to stdout` or `copy ({query}) to stdout` rendered
from the planner's query tree (`query.CopyOut`). -/
inductive CopyStmt where
  | simple (table : DbObject) (attrs : List SqlCol)
  | viaQuery (q : QNode)
deriving Repr

/-- The import statement set by `set_import_statement`:
`copy {table} ({cols not in no_columns}) from stdin;`. -/
structure ImportStmt where
  table : DbObject
  attrs : List SqlCol
deriving Repr

/-- `StatementsGenerator.set_import_statement`. -/
def setImportStatement (table : DbObject) (m : RuleMatch) : ImportStmt :=
  { table := table,
    attrs := table.columns.filterMap (fun col =>
      if m.no_columns.contains col.name then none else some (SqlCol.ident col.name)) }

/-- `StatementsGenerator.set_copy_statement`: the fast plain `COPY` is used
unless the action differs from `dump` or `replace`, `filter`,
`table.extcondition` or `table.ref_fkeys` is truthy; otherwise the planner
query is built and wrapped in `CopyOut`. -/
def setCopyStatement (db : Db) (st : Nat → RuleMatch) (fuel : Nat)
    (table : DbObject) (m : RuleMatch) : Except PyErr CopyStmt :=
  if !(!(m.action == .dump) || !m.replace.isEmpty || truthyStr m.filter
      || truthyStr table.extcondition || !table.ref_fkeys.isEmpty) then
    .ok (.simple table (getDumpAttrs table m))
  else
    match makeQuery db st fuel table m with
    | .error e => .error e
    | .ok q => .ok (.viaQuery q)

/-- `StatementsGenerator.find_errors`: a precise error per `no_columns`
entry and `replace` key that is not a column of the table, and the
skip-advice error when the number of distinct `no_columns` entries equals
the number of columns (`len(set(match.no_columns)) == len(table.columns)`). -/
def findErrors (table : DbObject) (m : RuleMatch) : List DumpErr :=
  (m.no_columns.filterMap (fun col =>
      if (table.get_column col).isNone then some (DumpErr.noSuchColumnNoColumns col) else none))
    ++ (m.replace.filterMap (fun p =>
      if (table.get_column p.1).isNone then some (DumpErr.noSuchColumnReplace p.1) else none))
    ++ (if m.no_columns.dedup.length = table.columns.length then [DumpErr.noColumnLeft] else [])

/-- The outcome of `StatementsGenerator.make_statements` on one table: the
(possibly updated) match and the statements set on it, if any. -/
structure GenResult where
  rmatch : RuleMatch
  copy : Option CopyStmt
  imp : Option ImportStmt
deriving Repr

/-- `StatementsGenerator.make_statements`: nothing for actions other than
`dump`/`ref`; a table without columns is quietly re-marked `skip`; a match
with errors (pre-existing or found) gets no statements; otherwise both the
copy and the import statements are set. -/
def makeStatements (db : Db) (st : Nat → RuleMatch) (fuel : Nat)
    (table : DbObject) (m : RuleMatch) : Except PyErr GenResult :=
  if !(m.action == .dump || m.action == .ref) then
    .ok { rmatch := m, copy := none, imp := none }
  else if table.columns.isEmpty then
    .ok { rmatch := { m with action := .skip }, copy := none, imp := none }
  else
    match m.errors ++ findErrors table m with
    | _ :: _ =>
      .ok { rmatch := { m with errors := m.errors ++ findErrors table m },
            copy := none, imp := none }
    | [] =>
      match setCopyStatement db st fuel table m with
      | .error e => .error e
      | .ok c =>
        .ok { rmatch := m, copy := some c, imp := some (setImportStatement table m) }

/-- Pointwise update of the matches dict (`self.matches[oid] = m` or an
in-place mutation of the match stored at `oid`). -/
def updAt (st : Nat → RuleMatch) (oid : Nat) (m : RuleMatch) : Nat → RuleMatch :=
  fun o => if o = oid then m else st o

/-- Placeholder for oids absent from the matches dict; `find_matches` fills
the dict for every object of the graph and only consults oids reachable from
it, so well-formedness hypotheses keep this out of reach. -/
def dummyMatch : RuleMatch :=
  { obj := { oid := 0, schema := "", name := "", kind := .table }, action := .skip }

/-- The guard of `_add_referred_tables`' fkey loop: only `unknown`, `ref`
and `dump` are entered; `skip` and `error` are terminal. -/
def traversable (a : Action) : Bool :=
  a == .unknown || a == .ref || a == .dump

/-- The fkey loop of `Dumper._add_referred_tables` with the recursive call's
entry guard (`if table.oid in seen: return` / `seen.add(table.oid)`)
inlined: for each fkey whose referenced match is traversable, promote
`unknown` to `ref`, append the fkey to `referenced_by` unless present, and
recurse into the referenced table's fkeys if it is not in `seen`.  Python
shares the mutated `seen` across the whole recursion, so it is threaded and
returned; the fuel decreases at every call and `none` (exhaustion) bubbles
up, so a `some` result is a complete run of the Python recursion. -/
def goFkeys (db : Db) : Nat → (Nat → RuleMatch) → List Nat → List ForeignKey →
    Option ((Nat → RuleMatch) × List Nat)
  | 0, _, _, _ => none
  | _ + 1, st, seen, [] => some (st, seen)
  | fuel + 1, st, seen, fkey :: rest =>
    let fm := st fkey.ftable_oid
    if traversable fm.action then
      let fm1 := if fm.action == .unknown then { fm with action := .ref } else fm
      let fm2 := if fm1.referenced_by.contains fkey then fm1
                 else { fm1 with referenced_by := fm1.referenced_by ++ [fkey] }
      let st1 := updAt st fkey.ftable_oid fm2
      match (if fm2.obj.oid ∈ seen then some (st1, seen)
             else goFkeys db fuel st1 (fm2.obj.oid :: seen) fm2.obj.fkeys) with
      | none => none
      | some (st2, seen2) => goFkeys db fuel st2 seen2 rest
    else
      goFkeys db fuel st seen rest

/-- `Dumper._add_referred_tables(table, seen)`: return if seen, else mark
seen and walk the table's fkeys. -/
def addReferredTables (db : Db) (fuel : Nat) (st : Nat → RuleMatch)
    (table : DbObject) (seen : List Nat) : Option ((Nat → RuleMatch) × List Nat) :=
  if table.oid ∈ seen then some (st, seen)
  else goFkeys db fuel st (table.oid :: seen) table.fkeys

/-- Pass A of `find_matches` (the second loop): every table whose current
action is `dump` or `ref` seeds a fresh traversal (`seen` starts empty). -/
def passA (db : Db) (fuel : Nat) (st0 : Nat → RuleMatch) : Option (Nat → RuleMatch) :=
  db.objects.foldlM (fun st obj =>
    if obj.kind.isTable && ((st obj.oid).action == .dump || (st obj.oid).action == .ref) then
      (addReferredTables db fuel st obj []).map (fun r => r.1)
    else some st) st0

/-- `Dumper._get_sequence_dependency_match`: the source returns a fresh
`ref` match at the first (table, column) pair whose table's action is `dump`
or `ref` with the column neither omitted nor replaced, and `None` after the
loop; the returned match does not depend on which pair fires, so the loop is
an existence check. -/
def getSequenceDependencyMatch (st : Nat → RuleMatch) (seq : DbObject)
    (pairs : List (DbObject × String)) : Option RuleMatch :=
  if pairs.any (fun tc =>
      ((st tc.1.oid).action == .dump || (st tc.1.oid).action == .ref)
        && !(st tc.1.oid).no_columns.contains tc.2
        && !dictHasKey (st tc.1.oid).replace tc.2) then
    some { obj := seq, action := .ref }
  else none

/-- One iteration of the third loop of `find_matches`: a sequence whose
action is still `unknown` adopts the dependency match if there is one. -/
def stepB (db : Db) (st : Nat → RuleMatch) (obj : DbObject) : Nat → RuleMatch :=
  if obj.kind == .sequence && (st obj.oid).action == .unknown then
    match getSequenceDependencyMatch st obj (db.getTablesUsingSequence obj.oid) with
    | some m => updAt st obj.oid m
    | none => st
  else st

/-- Pass B of `find_matches` (the third loop). -/
def passB (db : Db) (st0 : Nat → RuleMatch) : Nat → RuleMatch :=
  db.objects.foldl (stepB db) st0

/-- The first loop of `find_matches`: one `get_match` per object (a
`ConfigError` aborts the run). -/
def initMatches (db : Db) (rules : List DumpRule) : Except String (Nat → RuleMatch) :=
  db.objects.foldlM (fun st obj =>
    match getMatch rules obj with
    | .error e => Except.error e
    | .ok m => Except.ok (updAt st obj.oid m)) (fun _ => dummyMatch)

/-- A fuel budget ample for one pass-A traversal of the whole graph. -/
def Db.fuelA (db : Db) : Nat :=
  (db.objects.length + 1) * ((db.objects.map (fun o => o.fkeys.length)).foldr max 0 + 2) + 1

/-- `Dumper.find_matches`: initial matching, then the foreign-key closure
(pass A), then the sequence closure (pass B). -/
def findMatches (db : Db) (rules : List DumpRule) :
    Except String (Option (Nat → RuleMatch)) :=
  match initMatches db rules with
  | .error e => .error e
  | .ok st => .ok ((passA db db.fuelA st).map (passB db))

/-- The sort key of `Dumper.apply_actions`: tables 1, sequences 2,
materialised views 3. -/
def kindKey (o : DbObject) : Nat :=
  if o.kind.isTable then 1 else if o.kind == .sequence then 2 else 3

/-- The ordering of `objs.sort(key=key)` in `apply_actions`. -/
def kindLE (a b : DbObject) : Prop := kindKey a ≤ kindKey b

instance : DecidableRel kindLE :=
  fun a b => inferInstanceAs (Decidable (kindKey a ≤ kindKey b))

instance : IsTotal DbObject kindLE := ⟨fun _ _ => le_total _ _⟩

instance : IsTrans DbObject kindLE := ⟨fun _ _ _ => le_trans⟩

/-- `objs.sort(key=key)`: Python's sort is stable, i.e. an insertion sort
with respect to `kindLE`. -/
def sortObjs (l : List DbObject) : List DbObject :=
  List.insertionSort kindLE l

/-- One dispatched writer call (`dump_table` / `dump_sequence` /
`dump_materialized_view`), with the object and its match. -/
inductive WriterCall where
  | dumpTable (obj : DbObject) (m : RuleMatch)
  | dumpSequence (obj : DbObject) (m : RuleMatch)
  | dumpMaterializedView (obj : DbObject) (m : RuleMatch)
deriving DecidableEq, Repr

/-- The dispatch of `apply_actions` on one object: `_apply_unknown` and
`_apply_skip` only log; there is no `_apply_error`, so an `error` action
raises `DumpError`; `_apply_dump` and `_apply_ref` call
`writer.dump_<kind>` — the writer has no `dump_partitioned_table` method,
so that kind raises `DumpError` too. -/
def applyOne (st : Nat → RuleMatch) (calls : List WriterCall) (obj : DbObject) :
    Except String (List WriterCall) :=
  match (st obj.oid).action with
  | .unknown => .ok calls
  | .skip => .ok calls
  | .error => .error "cannot dump a match error"
  | _ =>
    match obj.kind with
    | .table => .ok (calls ++ [.dumpTable obj (st obj.oid)])
    | .partTable => .error "don't know how to dump objects of kind partitioned table"
    | .sequence => .ok (calls ++ [.dumpSequence obj (st obj.oid)])
    | .matview => .ok (calls ++ [.dumpMaterializedView obj (st obj.oid)])

/-- `Dumper.apply_actions`: sort the objects by kind and dispatch each in
turn (the surrounding `begin_dump`/`end_dump` writer calls are not dump
calls and are not recorded). -/
def applyActions (db : Db) (st : Nat → RuleMatch) : Except String (List WriterCall) :=
  (sortObjs db.objects).foldlM (fun calls obj => applyOne st calls obj) []

/-- The writer call `applyOne` emits for an object, `none` when it only
logs; the two raising cases (`error` action, dumped partitioned table) also
map to `none`, but they never occur in a run that returns `ok`. -/
def callOf (st : Nat → RuleMatch) (obj : DbObject) : Option WriterCall :=
  match (st obj.oid).action with
  | .unknown => none
  | .skip => none
  | .error => none
  | _ =>
    match obj.kind with
    | .table => some (.dumpTable obj (st obj.oid))
    | .partTable => none
    | .sequence => some (.dumpSequence obj (st obj.oid))
    | .matview => some (.dumpMaterializedView obj (st obj.oid))


/-- Concrete fixture: an extension table carrying a dump condition with a
leading `where`. -/
def extCondTable : DbObject :=
  { oid := 5, schema := "public", name := "ext1", kind := .table,
    extension := some "postgis", extcondition := some "where id > 0",
    columns := [⟨"id", "integer"⟩] }

/-- Concrete fixture: a table consuming a sequence from column `id`. -/
def tSeqUser : DbObject :=
  { oid := 11, schema := "public", name := "t1", kind := .table,
    columns := [⟨"id", "integer"⟩, ⟨"data", "text"⟩] }

/-- Concrete fixture: the sequence consumed by `tSeqUser.id`. -/
def seqObj : DbObject :=
  { oid := 12, schema := "public", name := "t1_id_seq", kind := .sequence }

/-- Concrete fixture: the two-object graph with its sequence-usage edge. -/
def seqDb : Db :=
  { objects := [tSeqUser, seqObj], seqUsers := [(12, 11, "id")] }

/-- Concrete fixture: matches after rule matching and pass A — the table is
dumped, the sequence still unknown. -/
def stSeq : Nat → RuleMatch := fun oid =>
  if oid = 11 then { obj := tSeqUser, action := .dump }
  else if oid = 12 then { obj := seqObj, action := .unknown }
  else dummyMatch

/-- Concrete fixture: a one-column table. -/
def tableA : DbObject :=
  { oid := 7, schema := "public", name := "ta", kind := .table,
    columns := [⟨"a", "text"⟩] }

/-- Concrete fixture: a match whose `no_columns` lists every column of
`tableA` plus a column the table does not have. -/
def mBad : RuleMatch :=
  { obj := tableA, action := .dump, no_columns := ["a", "b"] }

/-- Concrete fixture: a `dump` match naming the missing column `b` in
`no_columns` and the missing column `c` in `replace` on `tableA`. -/
def mC7 : RuleMatch :=
  { obj := tableA, action := .dump, no_columns := ["b"], replace := [("c", "0")] }

/-- Concrete fixture: a self-referential foreign key (`tree.parent →
tree.id`). -/
def fkSelf : ForeignKey :=
  { name := "parent_fkey", table_oid := 3, table_cols := ["parent"],
    ftable_oid := 3, ftable_cols := ["id"] }

/-- Concrete fixture: a table whose only inbound foreign key is its own
self-referential one. -/
def selfRefTable : DbObject :=
  { oid := 3, schema := "public", name := "tree", kind := .table,
    columns := [⟨"id", "integer"⟩, ⟨"parent", "integer"⟩],
    fkeys := [fkSelf], ref_fkeys := [fkSelf] }

/-- Concrete fixture: the `dump` match of `selfRefTable` after pass A. -/
def mSelfRef : RuleMatch :=
  { obj := selfRefTable, action := .dump, referenced_by := [fkSelf] }

/-- Concrete fixture: the one-table graph around `selfRefTable`. -/
def selfDb : Db := { objects := [selfRefTable] }

/-- Concrete fixture: matches for `selfDb`. -/
def stSelf : Nat → RuleMatch := fun _ => mSelfRef

/-- Concrete fixture: the recursive-CTE query the planner builds for
`selfRefTable`. -/
def selfRefPlan : QNode :=
  QNode.select [.ident "id", .ident "parent"]
    (.fromCTE "t0r" (.select [.star "t0"] (.fromTable selfRefTable "t0") none)
      (some (.fkeyJoin fkSelf "t0r" "t0")) "t0r") none

/-- Concrete fixture: a plain table with no inbound fkeys. -/
def plainTable : DbObject :=
  { oid := 4, schema := "public", name := "plain", kind := .table,
    columns := [⟨"id", "integer"⟩] }

/-- Concrete fixture: an unconditional `dump` match for `plainTable`. -/
def mPlain : RuleMatch := { obj := plainTable, action := .dump }

/-- Concrete fixture: the fkey `t1.t2id → t2.id`. -/
def fkT1T2 : ForeignKey :=
  { name := "t2id_fkey", table_oid := 1, table_cols := ["t2id"],
    ftable_oid := 2, ftable_cols := ["id"] }

/-- Concrete fixture: the referencing table `t1`. -/
def t1C2 : DbObject :=
  { oid := 1, schema := "public", name := "t1", kind := .table,
    columns := [⟨"id", "integer"⟩, ⟨"t2id", "integer"⟩], fkeys := [fkT1T2] }

/-- Concrete fixture: the referenced table `t2`. -/
def t2C2 : DbObject :=
  { oid := 2, schema := "public", name := "t2", kind := .table,
    columns := [⟨"id", "integer"⟩, ⟨"data", "text"⟩], ref_fkeys := [fkT1T2] }

/-- Concrete fixture: `t1` dumped whole. -/
def m1C2 : RuleMatch := { obj := t1C2, action := .dump }

/-- Concrete fixture: `t2` dumped with a filter and referred to by `t1`. -/
def m2C2 : RuleMatch :=
  { obj := t2C2, action := .dump, filter := some "x > 0",
    referenced_by := [fkT1T2] }

/-- Concrete fixture: the two-table graph `t1 → t2`. -/
def dbC2 : Db := { objects := [t1C2, t2C2] }

/-- Concrete fixture: matches for `dbC2`. -/
def stC2 : Nat → RuleMatch := fun oid =>
  if oid = 1 then m1C2 else if oid = 2 then m2C2 else dummyMatch

/-- Concrete fixture: the WHERE clause the planner builds for `t2`: the
disjunction of the filter and the referrer's `EXISTS`. -/
def t2Where : QNode :=
  QNode.or [QNode.sqlCond "x > 0",
    QNode.exists_ (QNode.select [SqlCol.raw "1"] (QNode.fromTable t1C2 "t1")
      (some (QNode.fkeyJoin fkT1T2 "t1" "t0")))]

/-- Concrete fixture: a two-table foreign-key cycle, `ta.bid → tb.id`. -/
def fkAB : ForeignKey :=
  { name := "a_b_fkey", table_oid := 21, table_cols := ["bid"],
    ftable_oid := 22, ftable_cols := ["id"] }

/-- Concrete fixture: the back edge of the cycle, `tb.aid → ta.id`. -/
def fkBA : ForeignKey :=
  { name := "b_a_fkey", table_oid := 22, table_cols := ["aid"],
    ftable_oid := 21, ftable_cols := ["id"] }

/-- Concrete fixture: cycle table `ta`. -/
def cTA : DbObject :=
  { oid := 21, schema := "public", name := "ta", kind := .table,
    columns := [⟨"id", "integer"⟩, ⟨"bid", "integer"⟩],
    fkeys := [fkAB], ref_fkeys := [fkBA] }

/-- Concrete fixture: cycle table `tb`. -/
def cTB : DbObject :=
  { oid := 22, schema := "public", name := "tb", kind := .table,
    columns := [⟨"id", "integer"⟩, ⟨"aid", "integer"⟩],
    fkeys := [fkBA], ref_fkeys := [fkAB] }

/-- Concrete fixture: the cyclic two-table graph. -/
def cDb : Db := { objects := [cTA, cTB] }

/-- Concrete fixture: both cycle tables dumped, each referred by the other. -/
def cSt : Nat → RuleMatch := fun oid =>
  if oid = 21 then { obj := cTA, action := .dump, referenced_by := [fkBA] }
  else if oid = 22 then { obj := cTB, action := .dump, referenced_by := [fkAB] }
  else dummyMatch

/-- Whether an object's final action dispatches a writer dump call. -/
def dumped (st : Nat → RuleMatch) (o : DbObject) : Bool :=
  (st o.oid).action == Action.dump || (st o.oid).action == Action.ref

/-- Concrete fixture: a dumped table, inserted last into the graph. -/
def c9T : DbObject := { oid := 31, schema := "public", name := "t", kind := .table }

/-- Concrete fixture: a sequence marked `ref`. -/
def c9S : DbObject := { oid := 32, schema := "public", name := "s", kind := .sequence }

/-- Concrete fixture: a dumped materialised view. -/
def c9M : DbObject := { oid := 33, schema := "public", name := "m", kind := .matview }

/-- Concrete fixture: a skipped table, inserted before `c9T`. -/
def c9T2 : DbObject := { oid := 34, schema := "public", name := "t2", kind := .table }

/-- Concrete fixture: a graph inserted in the order sequence, view, skipped
table, dumped table. -/
def c9Db : Db := { objects := [c9S, c9M, c9T2, c9T] }

/-- Concrete fixture: the final actions for `c9Db`. -/
def c9St : Nat → RuleMatch := fun oid =>
  if oid = 31 then { obj := c9T, action := .dump }
  else if oid = 32 then { obj := c9S, action := .ref }
  else if oid = 33 then { obj := c9M, action := .dump }
  else if oid = 34 then { obj := c9T2, action := .skip }
  else dummyMatch

/-- Concrete fixture: a table owned by an extension that declares no dump
condition. -/
def extTable : DbObject :=
  { oid := 1, schema := "public", name := "t1", kind := .table,
    extension := some "postgis" }

/-- Concrete fixture: a plain table named `t1`. -/
def t1Obj : DbObject :=
  { oid := 1, schema := "public", name := "t1", kind := .table }

/-- Concrete fixture: a catch-all rule with the default `dump` action. -/
def dumpAllRule : DumpRule := {}

/-- Concrete fixture: a rule selecting `t1` by exact name (score 1000). -/
def nameDumpRule : DumpRule := { names := ["t1"], filename := some "a.yaml", lineno := some 3 }

/-- Concrete fixture: a catch-all `skip` rule (score 0). -/
def catchAllSkipRule : DumpRule := { action := .skip, filename := some "a.yaml", lineno := some 7 }

/-- Pointwise evolution of a match through `_add_referred_tables`: the
stored object is untouched, the action either stays or is promoted from
`unknown` to `ref`, the `referenced_by` list stays duplicate-free, and a
match whose action is terminal (not traversable, i.e. `skip` or `error`) is
left entirely unchanged. -/
def MatchEvol (m n : RuleMatch) : Prop :=
  n.obj = m.obj
    ∧ (n.action = m.action ∨ (m.action = .unknown ∧ n.action = .ref))
    ∧ (m.referenced_by.Nodup → n.referenced_by.Nodup)
    ∧ (traversable m.action = false → n = m)
    ∧ m.referenced_by ⊆ n.referenced_by

/-- Every outbound fkey of the object recorded at `oid` leads to a decided
match (action not `unknown`), and the fkey has been recorded in the
`referenced_by` list of every target that is not terminal. -/
def DoneAt (st : Nat → RuleMatch) (oid : Nat) : Prop :=
  ∀ fk ∈ (st oid).obj.fkeys, (st fk.ftable_oid).action ≠ .unknown
    ∧ (traversable (st fk.ftable_oid).action = true → fk ∈ (st fk.ftable_oid).referenced_by)

/-- Consistency of the matches dict: a match whose action can be traversed
records an object carrying its own key. -/
def WfSt (st : Nat → RuleMatch) : Prop :=
  ∀ oid, traversable (st oid).action = true → (st oid).obj.oid = oid

/-- The claim's reachability: follow outbound foreign keys from table to
table, passing only through tables whose action is `dump` or `ref` (`skip`
and `error` are never traversed through). -/
inductive ReachDR (db : Db) (st : Nat → RuleMatch) (t : DbObject) : DbObject → Prop where
  | refl : ReachDR db st t t
  | step (u v : DbObject) (fk : ForeignKey) :
      ReachDR db st t u → u ∈ db.objects → u.kind.isTable = true →
      ((st u.oid).action = .dump ∨ (st u.oid).action = .ref) →
      fk ∈ u.fkeys → v ∈ db.objects → v.kind.isTable = true →
      v.oid = fk.ftable_oid → ReachDR db st t v

/-- The per-fkey match update of `_add_referred_tables`: promote `unknown`
to `ref`, then append the fkey to `referenced_by` unless already present. -/
def promoteFm (fkey : ForeignKey) (fm : RuleMatch) : RuleMatch :=
  let fm1 := if fm.action == .unknown then { fm with action := .ref } else fm
  if fm1.referenced_by.contains fkey then fm1
  else { fm1 with referenced_by := fm1.referenced_by ++ [fkey] }

/-- Concrete fixture: a rule dumping only `ta`. -/
def c1Rule : DumpRule := { names := ["ta"] }

/-- Concrete fixture: the initial matches of the cyclic graph under
`c1Rule` (`ta` dump, `tb` unknown). -/
def c1St0 : Nat → RuleMatch :=
  match initMatches cDb [c1Rule] with
  | .ok st => st
  | .error _ => fun _ => dummyMatch

/-- Concrete fixture: the final matches of the cyclic graph under `c1Rule`
(`tb` promoted to `ref` through the fkey `ta.bid → tb.id`). -/
def c1Final : Nat → RuleMatch :=
  match findMatches cDb [c1Rule] with
  | .ok (some st) => st
  | _ => fun _ => dummyMatch

/-- Claim C10: `add_column` fails exactly when the name is already taken, so
the column names of a table stay pairwise distinct, and `get_column` returns
the unique column with the requested name, or `none` when there is none. -/
theorem add_column_get_column_spec (t : DbObject) (c : Column)
    (hnd : (t.columns.map Column.name).Nodup) :
    ((∃ e, t.add_column c = .error e) ↔ c.name ∈ t.columns.map Column.name) ∧
    (∀ t', t.add_column c = .ok t' → (t'.columns.map Column.name).Nodup) ∧
    (∀ nm c0, t.get_column nm = some c0 →
      c0 ∈ t.columns ∧ c0.name = nm ∧ ∀ c' ∈ t.columns, c'.name = nm → c' = c0) ∧
    (∀ nm, t.get_column nm = none → ∀ c' ∈ t.columns, c'.name ≠ nm) := by
  refine ⟨?_, ?_, ?_, ?_⟩
  · constructor
    · rintro ⟨e, he⟩
      unfold DbObject.add_column at he
      by_cases h : t.columns.any (fun c0 => c0.name == c.name)
      · simp only [List.any_eq_true, beq_iff_eq] at h
        obtain ⟨c0, hc0, hname⟩ := h
        exact List.mem_map.mpr ⟨c0, hc0, hname⟩
      · simp [h] at he
    · intro hmem
      obtain ⟨c0, hc0, hname⟩ := List.mem_map.mp hmem
      have h : t.columns.any (fun c0 => c0.name == c.name) := by
        simp only [List.any_eq_true, beq_iff_eq]
        exact ⟨c0, hc0, hname⟩
      exact ⟨"the table " ++ t.str ++ " has already a column called " ++ c.name,
        by unfold DbObject.add_column; simp [h]⟩
  · intro t' ht'
    unfold DbObject.add_column at ht'
    by_cases h : t.columns.any (fun c0 => c0.name == c.name)
    · simp [h] at ht'
    · simp only [h, Bool.false_eq_true, if_false, Except.ok.injEq] at ht'
      subst ht'
      simp only [List.map_append, List.map_cons, List.map_nil]
      rw [List.nodup_append]
      refine ⟨hnd, List.nodup_singleton _, ?_⟩
      intro a ha hb
      simp only [List.mem_singleton] at hb
      subst hb
      obtain ⟨c0, hc0, hname⟩ := List.mem_map.mp ha
      simp only [List.any_eq_true, beq_iff_eq] at h
      exact h ⟨c0, hc0, hname⟩
  · intro nm c0 h
    unfold DbObject.get_column at h
    have hmem := List.mem_of_find?_eq_some h
    have hname : c0.name = nm := by
      have := List.find?_some h
      simpa using this
    refine ⟨hmem, hname, ?_⟩
    intro c' hc' hc'name
    have : c'.name = c0.name := hc'name.trans hname.symm
    exact List.inj_on_of_nodup_map hnd hc' hmem this
  · intro nm h c' hc'
    unfold DbObject.get_column at h
    have := List.find?_eq_none.mp h c' hc'
    simpa using this

/-- Claim C10 witness: a concrete table with two distinct columns. -/
theorem add_column_get_column_spec_witness :
    (([⟨"id", "int"⟩, ⟨"data", "text"⟩] : List Column).map Column.name).Nodup ∧
    ((∃ e, (DbObject.add_column
        { oid := 1, schema := "public", name := "t1", kind := .table,
          columns := [⟨"id", "int"⟩, ⟨"data", "text"⟩] } ⟨"id", "bigint"⟩) = .error e) ↔
      "id" ∈ (([⟨"id", "int"⟩, ⟨"data", "text"⟩] : List Column).map Column.name)) := by
  constructor
  · decide
  · exact (add_column_get_column_spec
      { oid := 1, schema := "public", name := "t1", kind := .table,
        columns := [⟨"id", "int"⟩, ⟨"data", "text"⟩] } ⟨"id", "bigint"⟩ (by decide)).1

/-- Claim C6 counterexample: the claim quantifies over every database
object, but `get_match` short-circuits an extension-owned object without a
dump condition to `skip` before consulting the rules: here a single rule
with action `dump` matches the object, yet the match action is `skip`, not
the highest-scoring rule's action. -/
theorem getMatch_extension_counterexample :
    [dumpAllRule].filter (fun r => r.applies extTable) = [dumpAllRule] ∧
    getMatch [dumpAllRule] extTable = .ok { obj := extTable, action := .skip } ∧
    dumpAllRule.action = .dump ∧ Action.skip ≠ Action.dump :=
  ⟨rfl, rfl, rfl, by decide⟩

/-- Claim C6 (amended): for every database object that is not short-circuited
by the extension check, consider the rules whose selectors all match it,
sorted by descending score (stably).  If there is none the action is
`unknown`; if the two best scores are equal, matching fails with the
ambiguous-match `ConfigError` naming the source positions of both tied
rules; otherwise the top rule is the unique highest-scoring matching rule
and its action (and options) seed the object's match. -/
theorem getMatch_spec (rules : List DumpRule) (obj : DbObject)
    (hext : (obj.extension.isSome && obj.extcondition.isNone) = false) :
    (rules.filter (fun r => r.applies obj) = [] →
      getMatch rules obj = .ok { obj := obj, action := .unknown }) ∧
    (∀ r0 rest,
      sortByScoreDesc (rules.filter (fun r => r.applies obj)) = r0 :: rest →
      r0 ∈ rules.filter (fun r => r.applies obj) ∧
      (∀ r ∈ rules.filter (fun r => r.applies obj), r.score ≤ r0.score) ∧
      (rest = [] → getMatch rules obj = .ok (RuleMatch.from_rule obj r0)) ∧
      (∀ r1 rest', rest = r1 :: rest' →
        (r0.score = r1.score →
          getMatch rules obj = .error (ambiguousMsg obj r0 r1) ∧
          r1 ∈ rules.filter (fun r => r.applies obj)) ∧
        (r0.score ≠ r1.score →
          getMatch rules obj = .ok (RuleMatch.from_rule obj r0) ∧
          (RuleMatch.from_rule obj r0).action = r0.action ∧
          ∀ r ∈ rest, r.score < r0.score))) := by
  constructor
  · intro h
    have hnil : sortByScoreDesc (rules.filter (fun r => r.applies obj)) = [] := by
      rw [h]; rfl
    simp only [getMatch, hext, Bool.false_eq_true, if_false]
    rw [hnil]
  · intro r0 rest hs
    have hperm : List.Perm (r0 :: rest) (rules.filter (fun r => r.applies obj)) := by
      rw [← hs]
      exact List.perm_insertionSort scoreGE _
    have hsorted : List.Sorted scoreGE (r0 :: rest) := by
      rw [← hs]
      exact List.sorted_insertionSort scoreGE _
    refine ⟨hperm.subset (List.mem_cons_self _ _), ?_, ?_, ?_⟩
    · intro r hr
      rcases List.mem_cons.mp (hperm.mem_iff.mpr hr : r ∈ r0 :: rest) with h0 | h0
      · exact le_of_eq (by rw [h0])
      · exact List.rel_of_sorted_cons hsorted r h0
    · intro hrest
      subst hrest
      simp only [getMatch, hext, Bool.false_eq_true, if_false]
      rw [hs]
    · intro r1 rest' hrest
      subst hrest
      constructor
      · intro heq
        constructor
        · simp only [getMatch, hext, Bool.false_eq_true, if_false]
          rw [hs]
          simp [heq]
        · exact hperm.subset (List.mem_cons_of_mem _ (List.mem_cons_self _ _))
      · intro hne
        refine ⟨?_, rfl, ?_⟩
        · simp only [getMatch, hext, Bool.false_eq_true, if_false]
          rw [hs]
          simp [hne]
        · intro r hr
          have h1 : r.score ≤ r1.score := by
            rcases List.mem_cons.mp hr with h0 | h0
            · exact le_of_eq (by rw [h0])
            · exact List.rel_of_sorted_cons (List.Sorted.of_cons hsorted) r h0
          have h2 : r1.score ≤ r0.score :=
            List.rel_of_sorted_cons hsorted r1 (List.mem_cons_self _ _)
          have h3 : r1.score ≠ r0.score := fun h => hne h.symm
          exact lt_of_le_of_lt h1 (lt_of_le_of_ne h2 h3)

/-- Claim C6 witness: two rules (an exact-name `dump` rule, score 1000, and
a catch-all `skip` rule, score 0) both match `t1`; no tie, the name rule
wins. -/
theorem getMatch_spec_witness :
    ((t1Obj.extension.isSome && t1Obj.extcondition.isNone) = false) ∧
    (([nameDumpRule, catchAllSkipRule].filter (fun r => r.applies t1Obj) = [] →
      getMatch [nameDumpRule, catchAllSkipRule] t1Obj
        = .ok { obj := t1Obj, action := .unknown }) ∧
    (∀ r0 rest,
      sortByScoreDesc ([nameDumpRule, catchAllSkipRule].filter
          (fun r => r.applies t1Obj)) = r0 :: rest →
      r0 ∈ [nameDumpRule, catchAllSkipRule].filter (fun r => r.applies t1Obj) ∧
      (∀ r ∈ [nameDumpRule, catchAllSkipRule].filter (fun r => r.applies t1Obj),
        r.score ≤ r0.score) ∧
      (rest = [] →
        getMatch [nameDumpRule, catchAllSkipRule] t1Obj
          = .ok (RuleMatch.from_rule t1Obj r0)) ∧
      (∀ r1 rest', rest = r1 :: rest' →
        (r0.score = r1.score →
          getMatch [nameDumpRule, catchAllSkipRule] t1Obj
            = .error (ambiguousMsg t1Obj r0 r1) ∧
          r1 ∈ [nameDumpRule, catchAllSkipRule].filter (fun r => r.applies t1Obj)) ∧
        (r0.score ≠ r1.score →
          getMatch [nameDumpRule, catchAllSkipRule] t1Obj
            = .ok (RuleMatch.from_rule t1Obj r0) ∧
          (RuleMatch.from_rule t1Obj r0).action = r0.action ∧
          ∀ r ∈ rest, r.score < r0.score)))) :=
  ⟨by decide, getMatch_spec [nameDumpRule, catchAllSkipRule] t1Obj (by decide)⟩

/-- Claim C5: the spec expects `_get_filters` to add a planned table's
`extcondition` with any leading `WHERE` stripped; the source instead calls
`re.replace(r"(?i)^\s*where\s+", table.extcondition, "")` — the `re` module
has no function `replace`, so the planner raises `AttributeError` whenever a
table with a truthy extension condition reaches the slow path (and even read
as `re.sub`, the transposed arguments substitute into the empty string,
losing the condition).  The condition is never included. -/
theorem getFilters_extcondition_bug :
    truthyStr extCondTable.extcondition = true ∧
    getFilters extCondTable { obj := extCondTable, action := .dump }
      = .error .attributeError ∧
    setCopyStatement { objects := [extCondTable] } (fun _ => dummyMatch) 5
      extCondTable { obj := extCondTable, action := .dump }
      = .error .attributeError :=
  ⟨rfl, rfl, rfl⟩

/-- Claim C7 counterexample: `no_columns = ["a", "b"]` on a table whose only
column is `a` enumerates every column of the table, yet the skip-advice
error is not appended, because the source compares the number of distinct
`no_columns` entries (2) with the number of columns (1) instead of testing
column coverage. -/
theorem findErrors_counterexample :
    (∀ c ∈ tableA.columns, c.name ∈ mBad.no_columns) ∧
    DumpErr.noColumnLeft ∉ findErrors tableA mBad ∧
    findErrors tableA mBad = [DumpErr.noSuchColumnNoColumns "b"] := by
  refine ⟨by decide, by decide, by decide⟩

/-- Claim C7 (amended): during statement generation for a table with at
least one column and action `dump` or `ref`, every `no_columns` entry and
every `replace` key that does not name an existing column contributes its
precise error; the skip-advice error is appended exactly when the number of
distinct `no_columns` entries equals the number of the table's columns; and
a match with errors gets no statements (the errors are appended to it). -/
theorem findErrors_spec (db : Db) (st : Nat → RuleMatch) (fuel : Nat)
    (table : DbObject) (m : RuleMatch)
    (hact : m.action = .dump ∨ m.action = .ref) (hcols : table.columns ≠ []) :
    (∀ col ∈ m.no_columns, table.get_column col = none →
      DumpErr.noSuchColumnNoColumns col ∈ findErrors table m) ∧
    (∀ p ∈ m.replace, table.get_column p.1 = none →
      DumpErr.noSuchColumnReplace p.1 ∈ findErrors table m) ∧
    (DumpErr.noColumnLeft ∈ findErrors table m ↔
      m.no_columns.dedup.length = table.columns.length) ∧
    (∀ errs, m.errors ++ findErrors table m = errs → errs ≠ [] →
      makeStatements db st fuel table m
        = .ok { rmatch := { m with errors := errs }, copy := none, imp := none }) := by
  refine ⟨?_, ?_, ?_, ?_⟩
  · intro col hmem hnone
    refine List.mem_append_left _ (List.mem_append_left _ ?_)
    exact List.mem_filterMap.mpr ⟨col, hmem, by simp [hnone]⟩
  · intro p hmem hnone
    refine List.mem_append_left _ (List.mem_append_right _ ?_)
    exact List.mem_filterMap.mpr ⟨p, hmem, by simp [hnone]⟩
  · constructor
    · intro hmem
      rcases List.mem_append.mp hmem with h | h
      · rcases List.mem_append.mp h with h' | h'
        · obtain ⟨a, _, ha⟩ := List.mem_filterMap.mp h'
          by_cases hc : (table.get_column a).isNone <;> simp [hc] at ha
        · obtain ⟨a, _, ha⟩ := List.mem_filterMap.mp h'
          by_cases hc : (table.get_column a.1).isNone <;> simp [hc] at ha
      · by_cases hc : m.no_columns.dedup.length = table.columns.length
        · exact hc
        · simp [hc] at h
    · intro hc
      refine List.mem_append_right _ ?_
      simp [hc]
  · intro errs herrs hne
    have hguard : (!(m.action == .dump || m.action == .ref)) = false := by
      rcases hact with h | h <;> simp [h]
    have hcols' : table.columns.isEmpty = false := by
      cases hc : table.columns with
      | nil => exact absurd hc hcols
      | cons a l => simp
    unfold makeStatements
    rw [hguard, hcols']
    simp only [Bool.false_eq_true, if_false]
    rw [herrs]
    cases errs with
    | nil => exact absurd rfl hne
    | cons e es => simp [← herrs]

/-- Claim C7 witness: a `dump` match naming the missing column `b` in
`no_columns` and the missing column `c` in `replace` on the one-column table
`tableA`. -/
theorem findErrors_spec_witness :
    (mC7.action = .dump ∨ mC7.action = .ref) ∧
    tableA.columns ≠ [] ∧
    ((∀ col ∈ mC7.no_columns, tableA.get_column col = none →
      DumpErr.noSuchColumnNoColumns col ∈ findErrors tableA mC7) ∧
    (∀ p ∈ mC7.replace, tableA.get_column p.1 = none →
      DumpErr.noSuchColumnReplace p.1 ∈ findErrors tableA mC7) ∧
    (DumpErr.noColumnLeft ∈ findErrors tableA mC7 ↔
      mC7.no_columns.dedup.length = tableA.columns.length) ∧
    (∀ errs, mC7.errors ++ findErrors tableA mC7 = errs → errs ≠ [] →
      makeStatements { objects := [tableA] } (fun _ => dummyMatch) 5 tableA mC7
        = .ok { rmatch := { mC7 with errors := errs }, copy := none, imp := none })) :=
  ⟨Or.inl rfl, by decide,
    findErrors_spec { objects := [tableA] } (fun _ => dummyMatch) 5 tableA mC7
      (Or.inl rfl) (by decide)⟩

theorem anyCongr {α : Type} (l : List α) (f g : α → Bool)
    (h : ∀ a ∈ l, f a = g a) : l.any f = l.any g := by
  induction l with
  | nil => rfl
  | cons a l ih =>
    simp only [List.any_cons]
    rw [h a (List.mem_cons_self a l), ih (fun a ha => h a (List.mem_cons_of_mem _ ha))]

theorem stepB_apply_ne (db : Db) (st : Nat → RuleMatch) (obj : DbObject) (o : Nat)
    (h : o ≠ obj.oid ∨ obj.kind ≠ .sequence) : stepB db st obj o = st o := by
  unfold stepB
  by_cases hk : (obj.kind == Kind.sequence && (st obj.oid).action == Action.unknown) = true
  · rw [if_pos hk]
    simp only [Bool.and_eq_true, beq_iff_eq] at hk
    cases hdep : getSequenceDependencyMatch st obj (db.getTablesUsingSequence obj.oid) with
    | none => rfl
    | some m =>
      show updAt st obj.oid m o = st o
      unfold updAt
      rcases h with h | h
      · exact if_neg h
      · exact absurd hk.1 h
  · rw [if_neg hk]

theorem stepB_seq_unknown (db : Db) (st : Nat → RuleMatch) (obj : DbObject)
    (hk : obj.kind = .sequence) (hu : (st obj.oid).action = .unknown) :
    stepB db st obj
      = (match getSequenceDependencyMatch st obj (db.getTablesUsingSequence obj.oid) with
        | some m => updAt st obj.oid m
        | none => st) := by
  unfold stepB
  rw [if_pos (by simp [hk, hu])]

theorem foldB_apply_ne (db : Db) (l : List DbObject) (st : Nat → RuleMatch) (o : Nat)
    (h : ∀ obj ∈ l, o ≠ obj.oid ∨ obj.kind ≠ .sequence) :
    l.foldl (stepB db) st o = st o := by
  induction l generalizing st with
  | nil => rfl
  | cons a l ih =>
    rw [List.foldl_cons, ih _ (fun obj hm => h obj (List.mem_cons_of_mem a hm))]
    exact stepB_apply_ne db st a o (h a (List.mem_cons_self a l))

theorem seqDepMatch_congr (st1 st0 : Nat → RuleMatch) (seq : DbObject)
    (pairs : List (DbObject × String))
    (h : ∀ tc ∈ pairs, st1 tc.1.oid = st0 tc.1.oid) :
    getSequenceDependencyMatch st1 seq pairs = getSequenceDependencyMatch st0 seq pairs := by
  unfold getSequenceDependencyMatch
  rw [anyCongr pairs _ _ (fun tc htc => by rw [h tc htc])]

theorem seqDepMatch_iff (st : Nat → RuleMatch) (seq : DbObject)
    (pairs : List (DbObject × String)) :
    (getSequenceDependencyMatch st seq pairs = some { obj := seq, action := .ref } ↔
      ∃ tc ∈ pairs, ((st tc.1.oid).action = .dump ∨ (st tc.1.oid).action = .ref) ∧
        tc.2 ∉ (st tc.1.oid).no_columns ∧ dictHasKey (st tc.1.oid).replace tc.2 = false) ∧
    ((¬ ∃ tc ∈ pairs, ((st tc.1.oid).action = .dump ∨ (st tc.1.oid).action = .ref) ∧
        tc.2 ∉ (st tc.1.oid).no_columns ∧ dictHasKey (st tc.1.oid).replace tc.2 = false) →
      getSequenceDependencyMatch st seq pairs = none) := by
  have key : (pairs.any (fun tc =>
      ((st tc.1.oid).action == Action.dump || (st tc.1.oid).action == Action.ref)
        && !(st tc.1.oid).no_columns.contains tc.2
        && !dictHasKey (st tc.1.oid).replace tc.2)) = true ↔
      ∃ tc ∈ pairs, ((st tc.1.oid).action = .dump ∨ (st tc.1.oid).action = .ref) ∧
        tc.2 ∉ (st tc.1.oid).no_columns ∧ dictHasKey (st tc.1.oid).replace tc.2 = false := by
    rw [List.any_eq_true]
    constructor
    · rintro ⟨tc, htc, hcond⟩
      simp only [Bool.and_eq_true, Bool.or_eq_true, beq_iff_eq, Bool.not_eq_true'] at hcond
      refine ⟨tc, htc, hcond.1.1, ?_, hcond.2⟩
      intro hmem
      have hc2 : (st tc.1.oid).no_columns.contains tc.2 = true := List.elem_iff.mpr hmem
      rw [hcond.1.2] at hc2
      exact Bool.noConfusion hc2
    · rintro ⟨tc, htc, h1, h2, h3⟩
      refine ⟨tc, htc, ?_⟩
      simp only [Bool.and_eq_true, Bool.or_eq_true, beq_iff_eq, Bool.not_eq_true']
      refine ⟨⟨h1, ?_⟩, h3⟩
      cases hc : (st tc.1.oid).no_columns.contains tc.2 with
      | false => rfl
      | true => exact absurd (List.elem_iff.mp hc) h2
  unfold getSequenceDependencyMatch
  by_cases hany : (pairs.any (fun tc =>
      ((st tc.1.oid).action == Action.dump || (st tc.1.oid).action == Action.ref)
        && !(st tc.1.oid).no_columns.contains tc.2
        && !dictHasKey (st tc.1.oid).replace tc.2)) = true
  · rw [if_pos hany]
    exact ⟨⟨fun _ => key.mp hany, fun _ => rfl⟩,
      fun hno => absurd (key.mp hany) hno⟩
  · rw [if_neg hany]
    exact ⟨⟨fun h => Option.noConfusion h, fun hex => absurd (key.mpr hex) hany⟩,
      fun _ => rfl⟩

theorem oid_inj (db : Db) (hnd : (db.objects.map DbObject.oid).Nodup)
    {a b : DbObject} (ha : a ∈ db.objects) (hb : b ∈ db.objects)
    (h : a.oid = b.oid) : a = b :=
  List.inj_on_of_nodup_map hnd ha hb h

theorem isTable_ne_sequence {k : Kind} (h : k.isTable = true) : k ≠ .sequence := by
  intro hk
  rw [hk] at h
  exact absurd h (by decide)

theorem mem_objects_of_usingSequence (db : Db) (oid : Nat) (tc : DbObject × String)
    (h : tc ∈ db.getTablesUsingSequence oid) : tc.1 ∈ db.objects := by
  unfold Db.getTablesUsingSequence at h
  obtain ⟨e, _, he⟩ := List.mem_filterMap.mp h
  by_cases hc : (e.1 == oid) = true
  · rw [if_pos hc] at he
    rcases Option.map_eq_some'.mp he with ⟨t, hget, hpair⟩
    have hmem := List.mem_of_find?_eq_some hget
    rw [← hpair]
    exact hmem
  · rw [if_neg hc] at he
    cases he

/-- Claim C3: for every sequence whose action after rule matching (and the
fkey closure) is still `unknown`, pass B marks it `ref` exactly when some
table consuming it via a column that is neither in that table's `no_columns`
nor replaced has action `dump` or `ref`; otherwise its match is left
untouched (so the action stays `unknown`). -/
theorem sequence_ref_iff (db : Db) (st0 : Nat → RuleMatch) (seq : DbObject)
    (hnd : (db.objects.map DbObject.oid).Nodup)
    (hmem : seq ∈ db.objects) (hkind : seq.kind = .sequence)
    (hunknown : (st0 seq.oid).action = .unknown)
    (htab : ∀ tc ∈ db.getTablesUsingSequence seq.oid, tc.1.kind.isTable = true) :
    (passB db st0 seq.oid = { obj := seq, action := .ref } ↔
      ∃ tc ∈ db.getTablesUsingSequence seq.oid,
        ((st0 tc.1.oid).action = .dump ∨ (st0 tc.1.oid).action = .ref) ∧
        tc.2 ∉ (st0 tc.1.oid).no_columns ∧
        dictHasKey (st0 tc.1.oid).replace tc.2 = false) ∧
    ((¬ ∃ tc ∈ db.getTablesUsingSequence seq.oid,
        ((st0 tc.1.oid).action = .dump ∨ (st0 tc.1.oid).action = .ref) ∧
        tc.2 ∉ (st0 tc.1.oid).no_columns ∧
        dictHasKey (st0 tc.1.oid).replace tc.2 = false) →
      passB db st0 seq.oid = st0 seq.oid) := by
  obtain ⟨l1, l2, hsplit⟩ := List.append_of_mem hmem
  have hnd' := hnd
  rw [hsplit, List.map_append, List.map_cons, List.nodup_append] at hnd'
  obtain ⟨hnd1, hnd2, hdisj⟩ := hnd'
  have hl1 : ∀ obj ∈ l1, obj.oid ≠ seq.oid := by
    intro obj hobj heq
    have h2 : obj.oid ∈ seq.oid :: List.map DbObject.oid l2 := by
      rw [heq]; exact List.mem_cons_self _ _
    exact hdisj (List.mem_map_of_mem DbObject.oid hobj) h2
  have hl2 : ∀ obj ∈ l2, obj.oid ≠ seq.oid := by
    intro obj hobj heq
    have hnotin := (List.nodup_cons.mp hnd2).1
    apply hnotin
    rw [← heq]
    exact List.mem_map_of_mem DbObject.oid hobj
  -- a pair's table oid is never updated by pass B
  have hpres : ∀ (l : List DbObject), (∀ o ∈ l, o ∈ db.objects) →
      ∀ (st : Nat → RuleMatch) (tc : DbObject × String),
      tc ∈ db.getTablesUsingSequence seq.oid →
      l.foldl (stepB db) st tc.1.oid = st tc.1.oid := by
    intro l hl st tc htc
    refine foldB_apply_ne db l st tc.1.oid ?_
    intro obj hobj
    by_cases heq : tc.1.oid = obj.oid
    · right
      have : obj = tc.1 :=
        oid_inj db hnd (hl obj hobj) (mem_objects_of_usingSequence db seq.oid tc htc)
          heq.symm
      rw [this]
      exact isTable_ne_sequence (htab tc htc)
    · exact Or.inl heq
  have hsub1 : ∀ o ∈ l1, o ∈ db.objects := by
    intro o ho; rw [hsplit]; exact List.mem_append_left _ ho
  have hsub2 : ∀ o ∈ l2, o ∈ db.objects := by
    intro o ho; rw [hsplit]; exact List.mem_append_right _ (List.mem_cons_of_mem _ ho)
  have hst1seq : (l1.foldl (stepB db) st0) seq.oid = st0 seq.oid :=
    foldB_apply_ne db l1 st0 seq.oid (fun obj hobj => Or.inl (fun h => hl1 obj hobj h.symm))
  have hst1pairs : ∀ tc ∈ db.getTablesUsingSequence seq.oid,
      (l1.foldl (stepB db) st0) tc.1.oid = st0 tc.1.oid :=
    fun tc htc => hpres l1 hsub1 st0 tc htc
  have hdep : getSequenceDependencyMatch (l1.foldl (stepB db) st0) seq
      (db.getTablesUsingSequence seq.oid)
      = getSequenceDependencyMatch st0 seq (db.getTablesUsingSequence seq.oid) :=
    seqDepMatch_congr _ _ _ _ hst1pairs
  have hstep : stepB db (l1.foldl (stepB db) st0) seq
      = (match getSequenceDependencyMatch st0 seq (db.getTablesUsingSequence seq.oid) with
        | some m => updAt (l1.foldl (stepB db) st0) seq.oid m
        | none => l1.foldl (stepB db) st0) := by
    have h0 := stepB_seq_unknown db (l1.foldl (stepB db) st0) seq hkind
      (by rw [hst1seq]; exact hunknown)
    rw [hdep] at h0
    exact h0
  have hmain : passB db st0 seq.oid
      = (match getSequenceDependencyMatch st0 seq (db.getTablesUsingSequence seq.oid) with
        | some m => m
        | none => st0 seq.oid) := by
    unfold passB
    rw [hsplit, List.foldl_append, List.foldl_cons, hstep]
    cases hd : getSequenceDependencyMatch st0 seq (db.getTablesUsingSequence seq.oid) with
    | some m =>
      show (l2.foldl (stepB db) (updAt (l1.foldl (stepB db) st0) seq.oid m)) seq.oid = m
      rw [foldB_apply_ne db l2 _ seq.oid
        (fun obj hobj => Or.inl (fun h => hl2 obj hobj h.symm))]
      show updAt (l1.foldl (stepB db) st0) seq.oid m seq.oid = m
      unfold updAt
      rw [if_pos rfl]
    | none =>
      show (l2.foldl (stepB db) (l1.foldl (stepB db) st0)) seq.oid = st0 seq.oid
      rw [foldB_apply_ne db l2 _ seq.oid
        (fun obj hobj => Or.inl (fun h => hl2 obj hobj h.symm))]
      exact hst1seq
  obtain ⟨hiff, hnone⟩ := seqDepMatch_iff st0 seq (db.getTablesUsingSequence seq.oid)
  constructor
  · rw [hmain]
    cases hd : getSequenceDependencyMatch st0 seq (db.getTablesUsingSequence seq.oid) with
    | some m =>
      rw [hd] at hiff
      constructor
      · intro hm
        have hm' : m = { obj := seq, action := .ref } := hm
        exact hiff.mp (by rw [hm'])
      · intro hex
        exact Option.some_inj.mp (hiff.mpr hex)
    | none =>
      rw [hd] at hiff
      constructor
      · intro hm
        have hm' : st0 seq.oid = { obj := seq, action := .ref } := hm
        have hact : (st0 seq.oid).action = Action.ref := by rw [hm']
        rw [hunknown] at hact
        cases hact
      · intro hex
        exact Option.noConfusion (hiff.mpr hex)
  · intro hno
    rw [hmain, hnone hno]

/-- Claim C3 witness: sequence `t1_id_seq` is consumed by dumped table `t1`
via column `id`, which is neither omitted nor replaced, so pass B marks it
`ref`. -/
theorem sequence_ref_iff_witness :
    (seqDb.objects.map DbObject.oid).Nodup ∧ seqObj ∈ seqDb.objects ∧
    seqObj.kind = .sequence ∧ (stSeq seqObj.oid).action = .unknown ∧
    (∀ tc ∈ seqDb.getTablesUsingSequence seqObj.oid, tc.1.kind.isTable = true) ∧
    ((passB seqDb stSeq seqObj.oid = { obj := seqObj, action := .ref } ↔
      ∃ tc ∈ seqDb.getTablesUsingSequence seqObj.oid,
        ((stSeq tc.1.oid).action = .dump ∨ (stSeq tc.1.oid).action = .ref) ∧
        tc.2 ∉ (stSeq tc.1.oid).no_columns ∧
        dictHasKey (stSeq tc.1.oid).replace tc.2 = false) ∧
    ((¬ ∃ tc ∈ seqDb.getTablesUsingSequence seqObj.oid,
        ((stSeq tc.1.oid).action = .dump ∨ (stSeq tc.1.oid).action = .ref) ∧
        tc.2 ∉ (stSeq tc.1.oid).no_columns ∧
        dictHasKey (stSeq tc.1.oid).replace tc.2 = false) →
      passB seqDb stSeq seqObj.oid = stSeq seqObj.oid)) :=
  ⟨by decide, by decide, rfl, rfl, by decide,
    sequence_ref_iff seqDb stSeq seqObj (by decide) (by decide) rfl rfl (by decide)⟩

/-- Claim C4 counterexample: `tree`'s only inbound foreign key is
self-referential — there is no inbound reference from another table — and
its `dump` match has no replace, filter or extcondition, so the claim
predicts the plain `COPY tree (id, parent) TO STDOUT`; the source tests
`table.ref_fkeys`, which contains the self-referential fkey, and takes the
slow path, producing a recursive-CTE `COPY (query) TO STDOUT`. -/
theorem setCopyStatement_selfref_counterexample :
    mSelfRef.action = .dump ∧ mSelfRef.replace = [] ∧ mSelfRef.filter = none ∧
    selfRefTable.extcondition = none ∧
    (∀ fk ∈ selfRefTable.ref_fkeys, fk.table_oid = selfRefTable.oid) ∧
    makeStatements selfDb stSelf 5 selfRefTable mSelfRef
      = .ok { rmatch := mSelfRef, copy := some (.viaQuery selfRefPlan),
              imp := some (setImportStatement selfRefTable mSelfRef) } ∧
    (∀ t a, CopyStmt.viaQuery selfRefPlan ≠ CopyStmt.simple t a) :=
  ⟨rfl, rfl, rfl, rfl, by decide, rfl, fun _ _ h => CopyStmt.noConfusion h⟩

/-- Claim C4 (amended): for every non-empty table with action `dump` or
`ref` and no validation errors, the generated copy statement is the plain
`COPY table (columns) TO STDOUT` exactly when the action is `dump` and none
of replace, filter, extcondition, or any inbound foreign key — including
self-referential ones — applies; in every other case, whenever the planner
produces a query (it raises on a truthy extcondition, claim C5), the
statement is `COPY (query) TO STDOUT` built from the planner's tree. -/
theorem copy_statement_spec (db : Db) (st : Nat → RuleMatch) (fuel : Nat)
    (table : DbObject) (m : RuleMatch)
    (hact : m.action = .dump ∨ m.action = .ref)
    (hcols : table.columns ≠ [])
    (herr : m.errors ++ findErrors table m = []) :
    ((m.action = .dump ∧ m.replace = [] ∧ truthyStr m.filter = false ∧
        truthyStr table.extcondition = false ∧ table.ref_fkeys = []) →
      makeStatements db st fuel table m
        = .ok { rmatch := m, copy := some (.simple table (getDumpAttrs table m)),
                imp := some (setImportStatement table m) }) ∧
    (¬(m.action = .dump ∧ m.replace = [] ∧ truthyStr m.filter = false ∧
        truthyStr table.extcondition = false ∧ table.ref_fkeys = []) →
      ∀ q, makeQuery db st fuel table m = .ok q →
      makeStatements db st fuel table m
        = .ok { rmatch := m, copy := some (.viaQuery q),
                imp := some (setImportStatement table m) }) ∧
    (∀ res t a, makeStatements db st fuel table m = .ok res →
      res.copy = some (.simple t a) →
      (m.action = .dump ∧ m.replace = [] ∧ truthyStr m.filter = false ∧
        truthyStr table.extcondition = false ∧ table.ref_fkeys = [])) := by
  have hguard : (!(m.action == Action.dump || m.action == Action.ref)) = false := by
    rcases hact with h | h <;> simp [h]
  have hcols' : table.columns.isEmpty = false := by
    cases hc : table.columns with
    | nil => exact absurd hc hcols
    | cons a l => simp
  have hms : makeStatements db st fuel table m
      = (match setCopyStatement db st fuel table m with
        | .error e => .error e
        | .ok c =>
          .ok { rmatch := m, copy := some c, imp := some (setImportStatement table m) }) := by
    unfold makeStatements
    rw [hguard, hcols']
    simp only [Bool.false_eq_true, if_false]
    rw [herr]
  have hfastiff : (!(!(m.action == Action.dump) || !m.replace.isEmpty
      || truthyStr m.filter || truthyStr table.extcondition
      || !table.ref_fkeys.isEmpty)) = true ↔
      (m.action = .dump ∧ m.replace = [] ∧ truthyStr m.filter = false ∧
        truthyStr table.extcondition = false ∧ table.ref_fkeys = []) := by
    simp [List.isEmpty_iff, and_assoc, Bool.not_eq_true']
  refine ⟨?_, ?_, ?_⟩
  · intro hfast
    rw [hms]
    unfold setCopyStatement
    rw [if_pos (hfastiff.mpr hfast)]
  · intro hnf q hq
    rw [hms]
    unfold setCopyStatement
    rw [if_neg (fun h => hnf (hfastiff.mp h)), hq]
  · intro res t a hres hcopy
    rw [hms] at hres
    by_cases hfast : (!(!(m.action == Action.dump) || !m.replace.isEmpty
        || truthyStr m.filter || truthyStr table.extcondition
        || !table.ref_fkeys.isEmpty)) = true
    · exact hfastiff.mp hfast
    · exfalso
      unfold setCopyStatement at hres
      rw [if_neg hfast] at hres
      cases hmq : makeQuery db st fuel table m with
      | error e => rw [hmq] at hres; cases hres
      | ok q =>
        rw [hmq] at hres
        have hres' := (Except.ok.injEq _ _ ▸ hres : _)
        rw [← hres'] at hcopy
        have hcopy' : some (CopyStmt.viaQuery q) = some (CopyStmt.simple t a) := hcopy
        exact CopyStmt.noConfusion (Option.some_inj.mp hcopy')

/-- Claim C4 witness: a plain table with a plain `dump` match takes the
fast path. -/
theorem copy_statement_spec_witness :
    (mPlain.action = .dump ∨ mPlain.action = .ref) ∧
    plainTable.columns ≠ [] ∧
    mPlain.errors ++ findErrors plainTable mPlain = [] ∧
    (((mPlain.action = .dump ∧ mPlain.replace = [] ∧ truthyStr mPlain.filter = false ∧
        truthyStr plainTable.extcondition = false ∧ plainTable.ref_fkeys = []) →
      makeStatements { objects := [plainTable] } (fun _ => dummyMatch) 5 plainTable mPlain
        = .ok { rmatch := mPlain,
                copy := some (.simple plainTable (getDumpAttrs plainTable mPlain)),
                imp := some (setImportStatement plainTable mPlain) }) ∧
    (¬(mPlain.action = .dump ∧ mPlain.replace = [] ∧ truthyStr mPlain.filter = false ∧
        truthyStr plainTable.extcondition = false ∧ plainTable.ref_fkeys = []) →
      ∀ q, makeQuery { objects := [plainTable] } (fun _ => dummyMatch) 5 plainTable mPlain
        = .ok q →
      makeStatements { objects := [plainTable] } (fun _ => dummyMatch) 5 plainTable mPlain
        = .ok { rmatch := mPlain, copy := some (.viaQuery q),
                imp := some (setImportStatement plainTable mPlain) }) ∧
    (∀ res t a,
      makeStatements { objects := [plainTable] } (fun _ => dummyMatch) 5 plainTable mPlain
        = .ok res →
      res.copy = some (.simple t a) →
      (mPlain.action = .dump ∧ mPlain.replace = [] ∧ truthyStr mPlain.filter = false ∧
        truthyStr plainTable.extcondition = false ∧ plainTable.ref_fkeys = []))) :=
  ⟨Or.inl rfl, by decide, by decide,
    copy_statement_spec { objects := [plainTable] } (fun _ => dummyMatch) 5 plainTable
      mPlain (Or.inl rfl) (by decide) (by decide)⟩

theorem foldStep_spec (db : Db) (st : Nat → RuleMatch)
    (rec : DbObject → RuleMatch → List Nat → Nat → Except PyErr (QNode × Nat))
    (al : String) (seen1 : List Nat) :
    ∀ (fks : List ForeignKey) (whs0 : List (Option QNode)) (srf0 : List ForeignKey)
      (c0 : Nat) (whs : List (Option QNode)) (srf : List ForeignKey) (c2 : Nat),
    fks.foldlM (stepFkey db st rec al seen1) (whs0, srf0, c0) = .ok (whs, srf, c2) →
    srf = srf0 ++ fks.filter (fun fk => fk.table_oid == fk.ftable_oid) ∧
    ∃ exs : List QNode,
      whs = whs0 ++ exs.map some ∧
      List.Forall₂ (fun fk ex => ∃ ptable sub c c',
          db.get fk.table_oid = some ptable ∧
          rec ptable (st fk.table_oid) seen1 c = .ok (sub, c') ∧
          ex = buildExistence fk al sub)
        (fks.filter (fun fk => !(fk.table_oid == fk.ftable_oid)
          && !seen1.contains fk.table_oid)) exs := by
  intro fks
  induction fks with
  | nil =>
    intro whs0 srf0 c0 whs srf c2 h
    have h' : (whs0, srf0, c0) = (whs, srf, c2) := Except.ok.inj h
    obtain ⟨h1, h2, h3⟩ : whs0 = whs ∧ srf0 = srf ∧ c0 = c2 := by
      simpa [Prod.ext_iff] using h'
    subst h1; subst h2
    exact ⟨by simp, [], by simp, by simp⟩
  | cons fk fks ih =>
    intro whs0 srf0 c0 whs srf c2 h
    rw [List.foldlM_cons] at h
    cases hstep : stepFkey db st rec al seen1 (whs0, srf0, c0) fk with
    | error e =>
      rw [hstep] at h
      exact Except.noConfusion (h : Except.error e = Except.ok (whs, srf, c2))
    | ok acc1 =>
      rw [hstep] at h
      have h2 : List.foldlM (stepFkey db st rec al seen1) acc1 fks
          = .ok (whs, srf, c2) := h
      unfold stepFkey at hstep
      by_cases hself : (fk.table_oid == fk.ftable_oid) = true
      · rw [if_pos hself] at hstep
        have hacc : acc1 = (whs0, srf0 ++ [fk], c0) := (Except.ok.inj hstep).symm
        subst hacc
        obtain ⟨hsrf, exs, hwhs, hfa⟩ := ih whs0 (srf0 ++ [fk]) c0 whs srf c2 h2
        refine ⟨?_, exs, hwhs, ?_⟩
        · rw [hsrf]
          simp [List.filter_cons, hself, List.append_assoc]
        · simpa [List.filter_cons, hself] using hfa
      · rw [if_neg hself] at hstep
        have hself' : (fk.table_oid == fk.ftable_oid) = false := by
          simpa using hself
        by_cases hseen : (seen1.contains fk.table_oid) = true
        · rw [if_pos hseen] at hstep
          have hseenm : fk.table_oid ∈ seen1 := List.elem_iff.mp hseen
          have hacc : acc1 = (whs0, srf0, c0) := (Except.ok.inj hstep).symm
          subst hacc
          obtain ⟨hsrf, exs, hwhs, hfa⟩ := ih whs0 srf0 c0 whs srf c2 h2
          refine ⟨?_, exs, hwhs, ?_⟩
          · rw [hsrf]
            simp [List.filter_cons, hself']
          · simpa [List.filter_cons, hself', hseenm] using hfa
        · rw [if_neg hseen] at hstep
          have hseen' : (seen1.contains fk.table_oid) = false := by
            simpa using hseen
          have hseenm : fk.table_oid ∉ seen1 := fun hm => hseen (List.elem_iff.mpr hm)
          cases hget : db.get fk.table_oid with
          | none =>
            rw [hget] at hstep
            exact Except.noConfusion hstep
          | some ptable =>
            rw [hget] at hstep
            have hstep2 : (match rec ptable (st fk.table_oid) seen1 (whs0, srf0, c0).2.2 with
                | Except.error e => Except.error e
                | Except.ok (subsel, c') =>
                  Except.ok ((whs0, srf0, c0).1 ++ [some (buildExistence fk al subsel)],
                    (whs0, srf0, c0).2.1, c')) = Except.ok acc1 := hstep
            cases hrec : rec ptable (st fk.table_oid) seen1 (whs0, srf0, c0).2.2 with
            | error e =>
              rw [hrec] at hstep2
              exact Except.noConfusion hstep2
            | ok r =>
              obtain ⟨sub, c'⟩ := r
              rw [hrec] at hstep2
              have hacc : acc1 = (whs0 ++ [some (buildExistence fk al sub)], srf0, c') :=
                (Except.ok.inj hstep2).symm
              subst hacc
              obtain ⟨hsrf, exs, hwhs, hfa⟩ :=
                ih (whs0 ++ [some (buildExistence fk al sub)]) srf0 c' whs srf c2 h2
              refine ⟨?_, buildExistence fk al sub :: exs, ?_, ?_⟩
              · rw [hsrf]
                simp [List.filter_cons, hself']
              · rw [hwhs, List.append_assoc]
                rfl
              · rw [List.filter_cons]
                have hcond : (!(fk.table_oid == fk.ftable_oid)
                    && !seen1.contains fk.table_oid) = true := by
                  simp [hself', hseenm]
                rw [if_pos hcond]
                exact List.Forall₂.cons ⟨ptable, sub, _, c', hget, hrec, rfl⟩ hfa

/-- Claim C2 counterexample: table `t2` has the `dump` action, the filter
`x > 0` and one (non-self-referential) referrer `t1.t2id → t2.id`; the
claim predicts the WHERE clause to be the conjunction of the filter with the
`EXISTS` disjunction (or, read strictly, the filter alone, since the table
is not marked `ref`); the planner instead joins them with `maybe_or`,
producing the disjunction `(x > 0) OR EXISTS (...)`. -/
theorem getSelect_or_counterexample :
    m2C2.action = .dump ∧ m2C2.filter = some "x > 0" ∧
    m2C2.referenced_by = [fkT1T2] ∧ fkT1T2.table_oid ≠ fkT1T2.ftable_oid ∧
    getSelect dbC2 stC2 3 t2C2 m2C2 [] 0
      = .ok (QNode.select [] (QNode.fromTable t2C2 "t0") (some t2Where), 2) ∧
    t2Where = QNode.or [QNode.sqlCond "x > 0",
      QNode.exists_ (QNode.select [SqlCol.raw "1"] (QNode.fromTable t1C2 "t1")
        (some (QNode.fkeyJoin fkT1T2 "t1" "t0")))] ∧
    (∀ l, t2Where ≠ QNode.and l) ∧ (∀ s, t2Where ≠ QNode.sqlCond s) :=
  ⟨rfl, rfl, rfl, by decide, by with_unfolding_all rfl, rfl,
    fun _ h => QNode.noConfusion h, fun _ h => QNode.noConfusion h⟩

/-- Claim C2 (amended): for every table planned through the query planner
whose referrers are all non-self-referential, the WHERE clause of the
generated `Select` is the `maybe_or` disjunction of (1) the rule's filter
(stripped of surrounding whitespace) if present — the extension condition
would raise instead of being included (claim C5), so in every successful
plan it is absent — and (2) one `EXISTS` subquery per referrer foreign key
whose referring table is not already on the current path, regardless of
whether the table's action is `dump` or `ref`; each `EXISTS` embeds the
recursive select of the referring table (its FROM entry and its own WHERE
closure), with an `FkeyJoin` predicate tying the referrer's columns to the
current table's alias. -/
theorem getSelect_where_spec (db : Db) (st : Nat → RuleMatch) (fuel : Nat)
    (table : DbObject) (m : RuleMatch) (seen : List Nat) (ctr : Nat)
    (q : QNode) (ctr2 : Nat)
    (h : getSelect db st (fuel + 1) table m seen ctr = .ok (q, ctr2))
    (hnosr : ∀ fk ∈ m.referenced_by, fk.table_oid ≠ fk.ftable_oid) :
    ∃ filt exs,
      getFilters table m = .ok filt ∧
      truthyStr table.extcondition = false ∧
      filt = (if truthyStr m.filter = true
        then some (QNode.sqlCond ((m.filter.getD "").trim)) else none) ∧
      q = QNode.select [] (QNode.fromTable table ("t" ++ toString ctr))
        (maybeOr (filt :: exs.map some)) ∧
      List.Forall₂ (fun fk ex => ∃ ptable sub c c',
          db.get fk.table_oid = some ptable ∧
          getSelect db st fuel ptable (st fk.table_oid) (table.oid :: seen) c
            = .ok (sub, c') ∧
          ex = buildExistence fk ("t" ++ toString ctr) sub)
        (m.referenced_by.filter (fun fk => !(fk.table_oid == fk.ftable_oid)
          && !(table.oid :: seen).contains fk.table_oid)) exs := by
  simp only [getSelect] at h
  cases hf : getFilters table m with
  | error e =>
    rw [hf] at h
    exact absurd h (by simp)
  | ok filt =>
    rw [hf] at h
    dsimp only at h
    cases hfold : m.referenced_by.foldlM
        (stepFkey db st (getSelect db st fuel) ("t" ++ toString ctr) (table.oid :: seen))
        ([filt], [], ctr + 1) with
    | error e =>
      rw [hfold] at h
      exact absurd h (by simp)
    | ok acc =>
      obtain ⟨whs, srf, c2'⟩ := acc
      rw [hfold] at h
      dsimp only at h
      obtain ⟨hsrf, exs, hwhs, hfa⟩ := foldStep_spec db st (getSelect db st fuel)
        ("t" ++ toString ctr) (table.oid :: seen) m.referenced_by [filt] [] (ctr + 1)
        whs srf c2' hfold
      have hsrfnil : srf = [] := by
        rw [hsrf]
        simp only [List.nil_append]
        rw [List.filter_eq_nil_iff]
        intro fk hfk
        simp only [beq_iff_eq]
        exact fun hc => hnosr fk hfk (by exact_mod_cast hc)
      subst hsrfnil
      simp only [List.isEmpty_nil, if_true] at h
      have hq : q = QNode.select [] (QNode.fromTable table ("t" ++ toString ctr))
          (maybeOr whs) := by
        have := Except.ok.inj h
        exact (congrArg Prod.fst this).symm
      refine ⟨filt, exs, rfl, ?_, ?_, ?_, hfa⟩
      · by_cases he : truthyStr table.extcondition = true
        · unfold getFilters at hf
          rw [if_pos he] at hf
          cases hf
        · exact Bool.not_eq_true _ ▸ he
      · unfold getFilters at hf
        by_cases he : truthyStr table.extcondition = true
        · rw [if_pos he] at hf
          cases hf
        · rw [if_neg he] at hf
          by_cases hft : truthyStr m.filter = true
          · rw [if_pos hft]
            simp only [hft, if_true] at hf
            have := Except.ok.inj hf
            rw [← this]
            rfl
          · rw [if_neg hft]
            simp only [hft] at hf
            have := Except.ok.inj hf
            rw [← this]
            rfl
      · rw [hq, hwhs]
        rfl

/-- Claim C2 witness: the concrete `t1 → t2` graph, `t2` planned with one
eligible referrer and its filter. -/
theorem getSelect_where_spec_witness :
    getSelect dbC2 stC2 (2 + 1) t2C2 m2C2 [] 0
      = .ok (QNode.select [] (QNode.fromTable t2C2 "t0") (some t2Where), 2) ∧
    (∀ fk ∈ m2C2.referenced_by, fk.table_oid ≠ fk.ftable_oid) ∧
    (∃ filt exs,
      getFilters t2C2 m2C2 = .ok filt ∧
      truthyStr t2C2.extcondition = false ∧
      filt = (if truthyStr m2C2.filter = true
        then some (QNode.sqlCond ((m2C2.filter.getD "").trim)) else none) ∧
      QNode.select [] (QNode.fromTable t2C2 "t0") (some t2Where)
        = QNode.select [] (QNode.fromTable t2C2 ("t" ++ toString 0))
          (maybeOr (filt :: exs.map some)) ∧
      List.Forall₂ (fun fk ex => ∃ ptable sub c c',
          dbC2.get fk.table_oid = some ptable ∧
          getSelect dbC2 stC2 2 ptable (stC2 fk.table_oid) (t2C2.oid :: []) c
            = .ok (sub, c') ∧
          ex = buildExistence fk ("t" ++ toString 0) sub)
        (m2C2.referenced_by.filter (fun fk => !(fk.table_oid == fk.ftable_oid)
          && !(t2C2.oid :: []).contains fk.table_oid)) exs) :=
  ⟨by with_unfolding_all rfl, by decide,
    getSelect_where_spec dbC2 stC2 2 t2C2 m2C2 [] 0
      (QNode.select [] (QNode.fromTable t2C2 "t0") (some t2Where)) 2
      (by with_unfolding_all rfl) (by decide)⟩

theorem length_filter_le_of_imp {α : Type} (p q : α → Bool)
    (himp : ∀ a, q a = true → p a = true) :
    ∀ l : List α, (l.filter q).length ≤ (l.filter p).length := by
  intro l
  induction l with
  | nil => simp
  | cons x xs ih =>
    rw [List.filter_cons, List.filter_cons]
    by_cases hq : q x = true
    · rw [if_pos hq, if_pos (himp x hq)]
      simpa using ih
    · rw [if_neg hq]
      by_cases hp : p x = true
      · rw [if_pos hp]
        exact le_trans ih (by simp)
      · rw [if_neg hp]
        exact ih

theorem length_filter_lt_of_mem {α : Type} (p q : α → Bool)
    (himp : ∀ a, q a = true → p a = true) :
    ∀ (l : List α) (a : α), a ∈ l → p a = true → q a = false →
    (l.filter q).length < (l.filter p).length := by
  intro l
  induction l with
  | nil => intro a ha; cases ha
  | cons x xs ih =>
    intro a ha hpa hqa
    rw [List.filter_cons, List.filter_cons]
    rcases List.mem_cons.mp ha with heq | hmem
    · subst heq
      rw [if_pos hpa, if_neg (by rw [hqa]; exact fun h => Bool.noConfusion h)]
      exact Nat.lt_succ_of_le (length_filter_le_of_imp p q himp xs)
    · have hlt := ih a hmem hpa hqa
      by_cases hq : q x = true
      · rw [if_pos hq, if_pos (himp x hq)]
        simpa using hlt
      · rw [if_neg hq]
        by_cases hp : p x = true
        · rw [if_pos hp]
          exact lt_trans hlt (by simp)
        · rw [if_neg hp]
          exact hlt

theorem db_get_mem (db : Db) (oid : Nat) (t : DbObject) (h : db.get oid = some t) :
    t ∈ db.objects ∧ t.oid = oid := by
  unfold Db.get at h
  refine ⟨List.mem_of_find?_eq_some h, ?_⟩
  have := List.find?_some h
  simpa using this

theorem unvisited_decrease (db : Db) (seen : List Nat) (t : DbObject)
    (hmem : t ∈ db.objects) (hnot : (seen.contains t.oid) = false) :
    (db.objects.filter (fun o => !(t.oid :: seen).contains o.oid)).length
      < (db.objects.filter (fun o => !seen.contains o.oid)).length := by
  refine length_filter_lt_of_mem _ _ ?_ db.objects t hmem ?_ ?_
  · intro a ha
    simp only [Bool.not_eq_true', List.contains_cons] at ha ⊢
    simp only [Bool.or_eq_false_iff] at ha
    exact ha.2
  · show (!seen.contains t.oid) = true
    rw [hnot]
    rfl
  · simp

theorem getFilters_no_fuelout (table : DbObject) (m : RuleMatch) (e : PyErr)
    (h : getFilters table m = .error e) : e ≠ .outOfFuel := by
  unfold getFilters at h
  by_cases he : truthyStr table.extcondition = true
  · rw [if_pos he] at h
    have : PyErr.attributeError = e := Except.error.inj h
    rw [← this]
    exact fun hc => PyErr.noConfusion hc
  · rw [if_neg he] at h
    exact absurd h (by simp)

theorem foldStep_no_fuelout (db : Db) (st : Nat → RuleMatch)
    (rec : DbObject → RuleMatch → List Nat → Nat → Except PyErr (QNode × Nat))
    (al : String) (seen1 : List Nat)
    (hsafe : ∀ ptable m' ctr', ptable ∈ db.objects →
      (seen1.contains ptable.oid) = false →
      ∀ e', rec ptable m' seen1 ctr' = .error e' → e' ≠ .outOfFuel) :
    ∀ (fks : List ForeignKey) (acc : List (Option QNode) × List ForeignKey × Nat)
      (e : PyErr),
    fks.foldlM (stepFkey db st rec al seen1) acc = .error e → e ≠ .outOfFuel := by
  intro fks
  induction fks with
  | nil =>
    intro acc e h
    exact Except.noConfusion (h : Except.ok acc = Except.error e)
  | cons fk fks ih =>
    intro acc e h
    rw [List.foldlM_cons] at h
    cases hstep : stepFkey db st rec al seen1 acc fk with
    | ok acc1 =>
      rw [hstep] at h
      exact ih acc1 e h
    | error e1 =>
      rw [hstep] at h
      have he1 : e1 = e := Except.error.inj (h : Except.error e1 = Except.error e)
      subst he1
      unfold stepFkey at hstep
      by_cases hself : (fk.table_oid == fk.ftable_oid) = true
      · rw [if_pos hself] at hstep
        exact absurd hstep (by simp)
      · rw [if_neg hself] at hstep
        by_cases hseen : (seen1.contains fk.table_oid) = true
        · rw [if_pos hseen] at hstep
          exact absurd hstep (by simp)
        · rw [if_neg hseen] at hstep
          cases hget : db.get fk.table_oid with
          | none =>
            rw [hget] at hstep
            have : PyErr.keyError = e1 := Except.error.inj hstep
            rw [← this]
            exact fun hc => PyErr.noConfusion hc
          | some ptable =>
            rw [hget] at hstep
            have hstep2 : (match rec ptable (st fk.table_oid) seen1 acc.2.2 with
                | Except.error e => Except.error e
                | Except.ok (subsel, c') =>
                  Except.ok (acc.1 ++ [some (buildExistence fk al subsel)],
                    acc.2.1, c')) = Except.error e1 := hstep
            cases hrec : rec ptable (st fk.table_oid) seen1 acc.2.2 with
            | ok r =>
              obtain ⟨sub, c'⟩ := r
              rw [hrec] at hstep2
              exact absurd hstep2 (by simp)
            | error e2 =>
              rw [hrec] at hstep2
              have he2 : e2 = e1 := Except.error.inj hstep2
              subst he2
              obtain ⟨hpm, hpo⟩ := db_get_mem db fk.table_oid ptable hget
              exact hsafe ptable (st fk.table_oid) acc.2.2 hpm
                (by rw [hpo]; simpa using hseen) e2 hrec

theorem getSelect_fuel_sufficient (db : Db) (st : Nat → RuleMatch) :
    ∀ (fuel : Nat) (table : DbObject) (m : RuleMatch) (seen : List Nat) (ctr : Nat),
    table ∈ db.objects → (seen.contains table.oid) = false →
    (db.objects.filter (fun o => !(table.oid :: seen).contains o.oid)).length < fuel →
    ∀ e, getSelect db st fuel table m seen ctr = .error e → e ≠ .outOfFuel := by
  intro fuel
  induction fuel with
  | zero =>
    intro table m seen ctr hmem hseen hlt
    exact absurd hlt (by simp)
  | succ fuel ih =>
    intro table m seen ctr hmem hseen hlt e he
    simp only [getSelect] at he
    cases hf : getFilters table m with
    | error e' =>
      rw [hf] at he
      dsimp only at he
      have : e' = e := Except.error.inj he
      rw [← this]
      exact getFilters_no_fuelout table m e' hf
    | ok filt =>
      rw [hf] at he
      dsimp only at he
      cases hfold : m.referenced_by.foldlM
          (stepFkey db st (getSelect db st fuel) ("t" ++ toString ctr) (table.oid :: seen))
          ([filt], [], ctr + 1) with
      | ok acc =>
        obtain ⟨whs, srf, c2'⟩ := acc
        rw [hfold] at he
        dsimp only at he
        by_cases hsr : srf.isEmpty = true
        · rw [if_pos hsr] at he
          exact absurd he (by simp)
        · rw [if_neg hsr] at he
          exact absurd he (by simp)
      | error e2 =>
        rw [hfold] at he
        dsimp only at he
        have he2 : e2 = e := Except.error.inj he
        subst he2
        refine foldStep_no_fuelout db st (getSelect db st fuel) ("t" ++ toString ctr)
          (table.oid :: seen) ?_ m.referenced_by ([filt], [], ctr + 1) e2 hfold
        intro ptable m' ctr' hpm hpseen e' hrec
        refine ih ptable m' (table.oid :: seen) ctr' hpm hpseen ?_ e' hrec
        have hdec := unvisited_decrease db (table.oid :: seen) ptable hpm hpseen
        have hle : (db.objects.filter
            (fun o => !(table.oid :: seen).contains o.oid)).length ≤ fuel :=
          Nat.lt_succ_iff.mp hlt
        exact lt_of_lt_of_le hdec hle

/-- Claim C8: statement generation terminates on every schema, cycles
included: a referring table already on the current path is omitted (with a
warning) instead of being recursed into, so with fuel bounding the number
of tables the planner never exhausts it — `getSelect` (and the whole
`make_statements`) can only fail with the `AttributeError` of claim C5 or a
missing-oid lookup, never by unbounded recursion, and its result is a
finite query tree. -/
theorem planner_cycle_terminates (db : Db) (st : Nat → RuleMatch)
    (table : DbObject) (m : RuleMatch) (hmem : table ∈ db.objects) :
    (∀ rec al seen1 acc fk, (fk.table_oid == fk.ftable_oid) = false →
      (seen1.contains fk.table_oid) = true →
      stepFkey db st rec al seen1 acc fk = .ok acc) ∧
    (∀ e, getSelect db st (db.objects.length + 1) table m [] 0 = .error e →
      e ≠ .outOfFuel) ∧
    (∀ e, makeStatements db st (db.objects.length + 1) table m = .error e →
      e ≠ .outOfFuel) := by
  have hbound : (db.objects.filter (fun o => !(table.oid :: []).contains o.oid)).length
      < db.objects.length + 1 :=
    Nat.lt_succ_of_le (List.length_filter_le _ _)
  have hsel := getSelect_fuel_sufficient db st (db.objects.length + 1) table m [] 0
    hmem (by simp) hbound
  refine ⟨?_, hsel, ?_⟩
  · intro rec al seen1 acc fk hself hseen
    unfold stepFkey
    rw [if_neg (by simp [hself]), if_pos hseen]
  · intro e he
    unfold makeStatements at he
    by_cases hact : (!(m.action == Action.dump || m.action == Action.ref)) = true
    · rw [if_pos hact] at he
      exact absurd he (by simp)
    · rw [if_neg hact] at he
      by_cases hcols : table.columns.isEmpty = true
      · rw [if_pos hcols] at he
        exact absurd he (by simp)
      · rw [if_neg hcols] at he
        cases herr : m.errors ++ findErrors table m with
        | cons e0 es =>
          rw [herr] at he
          exact absurd he (by simp)
        | nil =>
          rw [herr] at he
          dsimp only at he
          unfold setCopyStatement at he
          by_cases hfast : (!(!(m.action == Action.dump) || !m.replace.isEmpty
              || truthyStr m.filter || truthyStr table.extcondition
              || !table.ref_fkeys.isEmpty)) = true
          · rw [if_pos hfast] at he
            exact absurd he (by simp)
          · rw [if_neg hfast] at he
            unfold makeQuery at he
            cases hgs : getSelect db st (db.objects.length + 1) table m [] 0 with
            | error e2 =>
              rw [hgs] at he
              dsimp only at he
              have : e2 = e := Except.error.inj he
              rw [← this]
              exact hsel e2 hgs
            | ok r =>
              obtain ⟨sel, c⟩ := r
              rw [hgs] at he
              dsimp only at he
              exact absurd he (by simp)

/-- Claim C8 witness: the two-table cycle `ta.bid → tb.id`, `tb.aid →
ta.id`, both dumped and each referred by the other, planned with fuel
`|objects| + 1 = 3`. -/
theorem planner_cycle_terminates_witness :
    cTA ∈ cDb.objects ∧
    ((∀ rec al seen1 acc fk, (fk.table_oid == fk.ftable_oid) = false →
      (seen1.contains fk.table_oid) = true →
      stepFkey cDb cSt rec al seen1 acc fk = .ok acc) ∧
    (∀ e, getSelect cDb cSt (cDb.objects.length + 1) cTA (cSt 21) [] 0 = .error e →
      e ≠ .outOfFuel) ∧
    (∀ e, makeStatements cDb cSt (cDb.objects.length + 1) cTA (cSt 21) = .error e →
      e ≠ .outOfFuel)) :=
  ⟨by decide, planner_cycle_terminates cDb cSt cTA (cSt 21) (by decide)⟩

theorem kindKey_cases (o : DbObject) : kindKey o = 1 ∨ kindKey o = 2 ∨ kindKey o = 3 := by
  cases hk : o.kind <;> simp [kindKey, Kind.isTable, hk]

theorem kindKey_pos (o : DbObject) : 1 ≤ kindKey o := by
  rcases kindKey_cases o with h | h | h <;> rw [h] <;> omega

theorem oi_front (x : DbObject) (l : List DbObject)
    (h : ∀ b ∈ l, kindKey x ≤ kindKey b) :
    List.orderedInsert kindLE x l = x :: l := by
  cases l with
  | nil => rfl
  | cons b bs =>
    show (if kindLE x b then x :: b :: bs else b :: List.orderedInsert kindLE x bs)
      = x :: b :: bs
    exact if_pos (show kindLE x b from h b (List.mem_cons_self _ _))

theorem oi_skip (x : DbObject) :
    ∀ (A rest : List DbObject), (∀ a ∈ A, ¬ kindLE x a) →
    List.orderedInsert kindLE x (A ++ rest) = A ++ List.orderedInsert kindLE x rest := by
  intro A
  induction A with
  | nil => intro rest _; rfl
  | cons a as ih =>
    intro rest h
    rw [List.cons_append]
    show (if kindLE x a then x :: a :: (as ++ rest)
        else a :: List.orderedInsert kindLE x (as ++ rest))
      = (a :: as) ++ List.orderedInsert kindLE x rest
    rw [if_neg (h a (List.mem_cons_self _ _)),
      ih rest (fun b hb => h b (List.mem_cons_of_mem _ hb)), List.cons_append]

theorem sortObjs_decomp (l : List DbObject) :
    sortObjs l = l.filter (fun o => kindKey o == 1)
      ++ l.filter (fun o => kindKey o == 2)
      ++ l.filter (fun o => kindKey o == 3) := by
  induction l with
  | nil => rfl
  | cons x xs ih =>
    show List.orderedInsert kindLE x (sortObjs xs) = _
    rw [ih]
    rcases kindKey_cases x with hk | hk | hk
    · rw [oi_front x _ (fun b _ => by rw [hk]; exact kindKey_pos b)]
      simp [List.filter_cons, hk]
    · rw [List.append_assoc,
        oi_skip x _ _ (fun a ha => by
          have h1 : kindKey a = 1 := by simpa using (List.mem_filter.mp ha).2
          show ¬ (kindKey x ≤ kindKey a)
          rw [hk, h1]
          omega),
        oi_front x _ (fun b hb => by
          rcases List.mem_append.mp hb with h2 | h3
          · have h1 : kindKey b = 2 := by simpa using (List.mem_filter.mp h2).2
            rw [hk, h1]
          · have h1 : kindKey b = 3 := by simpa using (List.mem_filter.mp h3).2
            rw [hk, h1]
            omega)]
      simp [List.filter_cons, hk, List.append_assoc]
    · rw [oi_skip x _ _ (fun a ha => by
          rcases List.mem_append.mp ha with h2 | h3
          · have h1 : kindKey a = 1 := by simpa using (List.mem_filter.mp h2).2
            show ¬ (kindKey x ≤ kindKey a)
            rw [hk, h1]
            omega
          · have h1 : kindKey a = 2 := by simpa using (List.mem_filter.mp h3).2
            show ¬ (kindKey x ≤ kindKey a)
            rw [hk, h1]
            omega),
        oi_front x _ (fun b hb => by
          have h1 : kindKey b = 3 := by simpa using (List.mem_filter.mp hb).2
          rw [hk, h1])]
      simp [List.filter_cons, hk, List.append_assoc]

theorem applyOne_ok (st : Nat → RuleMatch) (acc : List WriterCall) (obj : DbObject)
    (acc1 : List WriterCall) (h : applyOne st acc obj = .ok acc1) :
    acc1 = acc ++ (callOf st obj).toList := by
  unfold applyOne at h
  unfold callOf
  cases hact : (st obj.oid).action <;> rw [hact] at h
  · exact ((Except.ok.inj h) ▸ by simp)
  · exact ((Except.ok.inj h) ▸ by simp)
  · cases hk : obj.kind <;> rw [hk] at h
    · rw [← Except.ok.inj h]; simp
    · exact Except.noConfusion h
    · rw [← Except.ok.inj h]; simp
    · rw [← Except.ok.inj h]; simp
  · exact Except.noConfusion h
  · cases hk : obj.kind <;> rw [hk] at h
    · rw [← Except.ok.inj h]; simp
    · exact Except.noConfusion h
    · rw [← Except.ok.inj h]; simp
    · rw [← Except.ok.inj h]; simp

theorem applyFold_spec (st : Nat → RuleMatch) :
    ∀ (l : List DbObject) (acc calls : List WriterCall),
    l.foldlM (fun calls obj => applyOne st calls obj) acc = .ok calls →
    calls = acc ++ l.filterMap (callOf st) := by
  intro l
  induction l with
  | nil =>
    intro acc calls h
    have := Except.ok.inj (h : Except.ok acc = Except.ok calls)
    rw [← this]
    simp
  | cons x xs ih =>
    intro acc calls h
    rw [List.foldlM_cons] at h
    cases hstep : applyOne st acc x with
    | error e =>
      rw [hstep] at h
      exact Except.noConfusion (h : Except.error e = Except.ok calls)
    | ok acc1 =>
      rw [hstep] at h
      have h2 : xs.foldlM (fun calls obj => applyOne st calls obj) acc1
          = .ok calls := h
      rw [ih acc1 calls h2, applyOne_ok st acc x acc1 hstep, List.filterMap_cons]
      cases hc : callOf st x <;> simp [List.append_assoc]

theorem filterMap_eq_map_filter {α β : Type} (f : α → Option β) (p : α → Bool)
    (g : α → β) :
    ∀ l : List α, (∀ a ∈ l, f a = if p a then some (g a) else none) →
    l.filterMap f = (l.filter p).map g := by
  intro l
  induction l with
  | nil => intro _; rfl
  | cons x xs ih =>
    intro h
    rw [List.filterMap_cons, List.filter_cons,
      h x (List.mem_cons_self _ _)]
    by_cases hp : p x = true
    · rw [if_pos hp, if_pos hp, List.map_cons,
        ih (fun a ha => h a (List.mem_cons_of_mem _ ha))]
    · rw [if_neg hp, if_neg hp, ih (fun a ha => h a (List.mem_cons_of_mem _ ha))]

theorem callOf_k1 (st : Nat → RuleMatch) (a : DbObject)
    (h1 : (kindKey a == 1) = true) :
    callOf st a = if (a.kind == Kind.table && dumped st a) = true
      then some (.dumpTable a (st a.oid)) else none := by
  cases hk : a.kind
  · unfold callOf dumped
    cases hact : (st a.oid).action <;> simp [hk, hact]
  · unfold callOf dumped
    cases hact : (st a.oid).action <;> simp [hk, hact]
  · rw [kindKey, hk] at h1
    simp [Kind.isTable] at h1
  · rw [kindKey, hk] at h1
    simp [Kind.isTable] at h1

theorem callOf_k2 (st : Nat → RuleMatch) (a : DbObject)
    (h1 : (kindKey a == 2) = true) :
    callOf st a = if (a.kind == Kind.sequence && dumped st a) = true
      then some (.dumpSequence a (st a.oid)) else none := by
  cases hk : a.kind
  · rw [kindKey, hk] at h1; simp [Kind.isTable] at h1
  · rw [kindKey, hk] at h1; simp [Kind.isTable] at h1
  · unfold callOf dumped
    cases hact : (st a.oid).action <;> simp [hk, hact]
  · rw [kindKey, hk] at h1; simp [Kind.isTable] at h1

theorem callOf_k3 (st : Nat → RuleMatch) (a : DbObject)
    (h1 : (kindKey a == 3) = true) :
    callOf st a = if (a.kind == Kind.matview && dumped st a) = true
      then some (.dumpMaterializedView a (st a.oid)) else none := by
  cases hk : a.kind
  · rw [kindKey, hk] at h1; simp [Kind.isTable] at h1
  · rw [kindKey, hk] at h1; simp [Kind.isTable] at h1
  · rw [kindKey, hk] at h1; simp [Kind.isTable] at h1
  · unfold callOf dumped
    cases hact : (st a.oid).action <;> simp [hk, hact]

theorem filter_kind_k1 (st : Nat → RuleMatch) (l : List DbObject) :
    (l.filter (fun o => kindKey o == 1)).filter
        (fun o => o.kind == Kind.table && dumped st o)
      = l.filter (fun o => o.kind == Kind.table && dumped st o) := by
  rw [List.filter_filter]
  refine List.filter_congr ?_
  intro o _
  cases hk : o.kind <;> simp [kindKey, Kind.isTable, hk]

theorem filter_kind_k2 (st : Nat → RuleMatch) (l : List DbObject) :
    (l.filter (fun o => kindKey o == 2)).filter
        (fun o => o.kind == Kind.sequence && dumped st o)
      = l.filter (fun o => o.kind == Kind.sequence && dumped st o) := by
  rw [List.filter_filter]
  refine List.filter_congr ?_
  intro o _
  cases hk : o.kind <;> simp [kindKey, Kind.isTable, hk]

theorem filter_kind_k3 (st : Nat → RuleMatch) (l : List DbObject) :
    (l.filter (fun o => kindKey o == 3)).filter
        (fun o => o.kind == Kind.matview && dumped st o)
      = l.filter (fun o => o.kind == Kind.matview && dumped st o) := by
  rw [List.filter_filter]
  refine List.filter_congr ?_
  intro o _
  cases hk : o.kind <;> simp [kindKey, Kind.isTable, hk]

/-- Claim C9: in a run of `apply_actions` that completes, the writer's dump
calls are exactly: every table with final action `dump` or `ref`, then
every such sequence, then every such materialised view — each group in the
Schema Graph's insertion order — and an object whose final action is
`unknown` or `skip` contributes no writer call at all. -/
theorem apply_actions_order (db : Db) (st : Nat → RuleMatch)
    (calls : List WriterCall) (h : applyActions db st = .ok calls) :
    calls =
      (db.objects.filter (fun o => o.kind == Kind.table && dumped st o)).map
        (fun o => WriterCall.dumpTable o (st o.oid))
      ++ (db.objects.filter (fun o => o.kind == Kind.sequence && dumped st o)).map
        (fun o => WriterCall.dumpSequence o (st o.oid))
      ++ (db.objects.filter (fun o => o.kind == Kind.matview && dumped st o)).map
        (fun o => WriterCall.dumpMaterializedView o (st o.oid)) := by
  unfold applyActions at h
  rw [applyFold_spec st (sortObjs db.objects) [] calls h, List.nil_append,
    sortObjs_decomp, List.filterMap_append, List.filterMap_append]
  rw [filterMap_eq_map_filter (callOf st) (fun o => o.kind == Kind.table && dumped st o)
      (fun o => WriterCall.dumpTable o (st o.oid)) _
      (fun a ha => callOf_k1 st a (List.mem_filter.mp ha).2),
    filterMap_eq_map_filter (callOf st) (fun o => o.kind == Kind.sequence && dumped st o)
      (fun o => WriterCall.dumpSequence o (st o.oid)) _
      (fun a ha => callOf_k2 st a (List.mem_filter.mp ha).2),
    filterMap_eq_map_filter (callOf st) (fun o => o.kind == Kind.matview && dumped st o)
      (fun o => WriterCall.dumpMaterializedView o (st o.oid)) _
      (fun a ha => callOf_k3 st a (List.mem_filter.mp ha).2),
    filter_kind_k1, filter_kind_k2, filter_kind_k3]

/-- Claim C9 witness: a graph inserted as [sequence, view, skipped table,
dumped table] dispatches the dumped table first, then the sequence, then
the view, and the skipped table not at all. -/
theorem apply_actions_order_witness :
    applyActions c9Db c9St
      = .ok [WriterCall.dumpTable c9T (c9St c9T.oid),
          WriterCall.dumpSequence c9S (c9St c9S.oid),
          WriterCall.dumpMaterializedView c9M (c9St c9M.oid)] ∧
    [WriterCall.dumpTable c9T (c9St c9T.oid),
        WriterCall.dumpSequence c9S (c9St c9S.oid),
        WriterCall.dumpMaterializedView c9M (c9St c9M.oid)]
      = (c9Db.objects.filter (fun o => o.kind == Kind.table && dumped c9St o)).map
          (fun o => WriterCall.dumpTable o (c9St o.oid))
        ++ (c9Db.objects.filter (fun o => o.kind == Kind.sequence && dumped c9St o)).map
          (fun o => WriterCall.dumpSequence o (c9St o.oid))
        ++ (c9Db.objects.filter (fun o => o.kind == Kind.matview && dumped c9St o)).map
          (fun o => WriterCall.dumpMaterializedView o (c9St o.oid)) :=
  ⟨rfl, apply_actions_order c9Db c9St _ rfl⟩

theorem matchEvol_refl (m : RuleMatch) : MatchEvol m m :=
  ⟨rfl, Or.inl rfl, id, fun _ => rfl, fun _ hx => hx⟩

theorem matchEvol_trans {a b c : RuleMatch} (h1 : MatchEvol a b) (h2 : MatchEvol b c) :
    MatchEvol a c := by
  obtain ⟨o1, a1, n1, f1, s1⟩ := h1
  obtain ⟨o2, a2, n2, f2, s2⟩ := h2
  refine ⟨o2.trans o1, ?_, fun h => n2 (n1 h), fun hf => ?_, fun x hx => s2 (s1 hx)⟩
  · rcases a1 with h | ⟨hu, hr⟩
    · rcases a2 with h2a | ⟨hu2, hr2⟩
      · exact Or.inl (h2a.trans h)
      · exact Or.inr ⟨h ▸ hu2, hr2⟩
    · rcases a2 with h2a | ⟨hu2, hr2⟩
      · exact Or.inr ⟨hu, h2a.trans hr⟩
      · rw [hr] at hu2
        exact absurd hu2 (by simp)
  · have hb : b = a := f1 hf
    rw [hb] at f2
    exact f2 hf

theorem evol_ne_unknown {m n : RuleMatch} (h : MatchEvol m n)
    (hm : m.action ≠ .unknown) : n.action ≠ .unknown := by
  rcases h.2.1 with he | ⟨hu, _⟩
  · rw [he]
    exact hm
  · exact absurd hu hm

theorem wfSt_of_evol {st st' : Nat → RuleMatch} (hwf : WfSt st)
    (h : ∀ oid, MatchEvol (st oid) (st' oid)) : WfSt st' := by
  intro oid ht
  rw [(h oid).1]
  rcases (h oid).2.1 with he | ⟨hu, _⟩
  · exact hwf oid (by rwa [he] at ht)
  · exact hwf oid (by rw [hu]; rfl)

theorem evol_traversable {m n : RuleMatch} (h : MatchEvol m n) :
    traversable n.action = traversable m.action := by
  rcases h.2.1 with he | ⟨hu, hr⟩
  · rw [he]
  · rw [hu, hr]
    decide

theorem doneAt_evol {st st' : Nat → RuleMatch} (h : ∀ oid, MatchEvol (st oid) (st' oid))
    {oid : Nat} (hd : DoneAt st oid) : DoneAt st' oid := by
  intro fk hfk
  rw [(h oid).1] at hfk
  obtain ⟨h1, h2⟩ := hd fk hfk
  refine ⟨evol_ne_unknown (h fk.ftable_oid) h1, fun htv => ?_⟩
  have htv0 : traversable (st fk.ftable_oid).action = true := by
    rw [← evol_traversable (h fk.ftable_oid)]
    exact htv
  exact (h fk.ftable_oid).2.2.2.2 (h2 htv0)

theorem updAt_self (st : Nat → RuleMatch) (k : Nat) (m : RuleMatch) :
    updAt st k m k = m := by
  simp [updAt]

theorem updAt_other (st : Nat → RuleMatch) (k : Nat) (m : RuleMatch) (oid : Nat)
    (h : oid ≠ k) : updAt st k m oid = st oid := by
  simp [updAt, h]

theorem updAt_evol {st : Nat → RuleMatch} {k : Nat} {m : RuleMatch}
    (h : MatchEvol (st k) m) : ∀ oid, MatchEvol (st oid) (updAt st k m oid) := by
  intro oid
  by_cases he : oid = k
  · subst he
    rw [updAt_self]
    exact h
  · rw [updAt_other st k m oid he]
    exact matchEvol_refl _

theorem promoteFm_obj (fkey : ForeignKey) (fm : RuleMatch) :
    (promoteFm fkey fm).obj = fm.obj := by
  unfold promoteFm
  by_cases h1 : (fm.action == Action.unknown) = true
  · rw [if_pos h1]
    by_cases h2 : ({ fm with action := Action.ref } : RuleMatch).referenced_by.contains fkey = true
    · rw [if_pos h2]
    · rw [if_neg h2]
  · rw [if_neg h1]
    by_cases h2 : fm.referenced_by.contains fkey = true
    · rw [if_pos h2]
    · rw [if_neg h2]

theorem promoteFm_action_ne_unknown (fkey : ForeignKey) (fm : RuleMatch) :
    (promoteFm fkey fm).action ≠ .unknown := by
  unfold promoteFm
  by_cases h1 : (fm.action == Action.unknown) = true
  · rw [if_pos h1]
    by_cases h2 : ({ fm with action := Action.ref } : RuleMatch).referenced_by.contains fkey = true
    · rw [if_pos h2]
      simp
    · rw [if_neg h2]
      simp
  · rw [if_neg h1]
    have hne : fm.action ≠ .unknown := by simpa using h1
    by_cases h2 : fm.referenced_by.contains fkey = true
    · rw [if_pos h2]
      exact hne
    · rw [if_neg h2]
      exact hne

theorem promoteFm_evol (fkey : ForeignKey) (fm : RuleMatch)
    (ht : traversable fm.action = true) : MatchEvol fm (promoteFm fkey fm) := by
  unfold promoteFm
  by_cases h1 : (fm.action == Action.unknown) = true
  · rw [if_pos h1]
    have hu : fm.action = .unknown := by simpa using h1
    by_cases h2 : ({ fm with action := Action.ref } : RuleMatch).referenced_by.contains fkey = true
    · rw [if_pos h2]
      exact ⟨rfl, Or.inr ⟨hu, rfl⟩, id, fun hf => by rw [hu] at hf; simp [traversable] at hf,
        fun _ hx => hx⟩
    · rw [if_neg h2]
      refine ⟨rfl, Or.inr ⟨hu, rfl⟩, fun hn => ?_,
        fun hf => by rw [hu] at hf; simp [traversable] at hf,
        fun x hx => List.mem_append_left _ hx⟩
      have hmem : fkey ∉ fm.referenced_by := by
        intro hmem
        exact h2 (List.elem_iff.mpr hmem)
      simp [List.nodup_append, hn, hmem]
  · rw [if_neg h1]
    have hne : fm.action ≠ .unknown := by simpa using h1
    by_cases h2 : fm.referenced_by.contains fkey = true
    · rw [if_pos h2]
      exact matchEvol_refl _
    · rw [if_neg h2]
      refine ⟨rfl, Or.inl rfl, fun hn => ?_, fun hf => absurd ht (by rw [hf]; simp),
        fun x hx => List.mem_append_left _ hx⟩
      have hmem : fkey ∉ fm.referenced_by := by
        intro hmem
        exact h2 (List.elem_iff.mpr hmem)
      simp [List.nodup_append, hn, hmem]

theorem promoteFm_mem (fkey : ForeignKey) (fm : RuleMatch) :
    fkey ∈ (promoteFm fkey fm).referenced_by := by
  unfold promoteFm
  by_cases h1 : (fm.action == Action.unknown) = true
  · rw [if_pos h1]
    by_cases h2 : ({ fm with action := Action.ref } : RuleMatch).referenced_by.contains fkey = true
    · rw [if_pos h2]
      exact List.elem_iff.mp h2
    · rw [if_neg h2]
      exact List.mem_append_right _ (List.mem_singleton.mpr rfl)
  · rw [if_neg h1]
    by_cases h2 : fm.referenced_by.contains fkey = true
    · rw [if_pos h2]
      exact List.elem_iff.mp h2
    · rw [if_neg h2]
      exact List.mem_append_right _ (List.mem_singleton.mpr rfl)

theorem goFkeys_cons (db : Db) (fuel : Nat) (st : Nat → RuleMatch) (seen : List Nat)
    (fkey : ForeignKey) (rest : List ForeignKey) :
    goFkeys db (fuel + 1) st seen (fkey :: rest)
      = if traversable (st fkey.ftable_oid).action then
          match (if (promoteFm fkey (st fkey.ftable_oid)).obj.oid ∈ seen
                 then some (updAt st fkey.ftable_oid (promoteFm fkey (st fkey.ftable_oid)), seen)
                 else goFkeys db fuel (updAt st fkey.ftable_oid (promoteFm fkey (st fkey.ftable_oid)))
                        ((promoteFm fkey (st fkey.ftable_oid)).obj.oid :: seen)
                        (promoteFm fkey (st fkey.ftable_oid)).obj.fkeys) with
          | none => none
          | some (st2, seen2) => goFkeys db fuel st2 seen2 rest
        else goFkeys db fuel st seen rest := rfl

theorem goFkeys_main (db : Db) : ∀ fuel st seen fks st' seen',
    WfSt st → goFkeys db fuel st seen fks = some (st', seen') →
    (∀ oid, MatchEvol (st oid) (st' oid)) ∧ (∀ oid ∈ seen, oid ∈ seen')
      ∧ (∀ fk ∈ fks, (st' fk.ftable_oid).action ≠ .unknown
          ∧ (traversable (st' fk.ftable_oid).action = true
            → fk ∈ (st' fk.ftable_oid).referenced_by))
      ∧ (∀ oid ∈ seen', oid ∈ seen ∨ DoneAt st' oid)
      ∧ (∀ oid, (st' oid).action ≠ (st oid).action → oid ∈ seen') := by
  intro fuel
  induction fuel with
  | zero =>
    intro st seen fks st' seen' hwf h
    exact Option.noConfusion h
  | succ fuel ih =>
    intro st seen fks st' seen' hwf h
    cases fks with
    | nil =>
      have h2 : some (st, seen) = some (st', seen') := h
      injection h2 with h3
      injection h3 with h4 h5
      subst h4
      subst h5
      exact ⟨fun _ => matchEvol_refl _, fun _ hm => hm,
        fun fk hfk => absurd hfk (List.not_mem_nil _),
        fun _ hm => Or.inl hm, fun _ hch => absurd rfl hch⟩
    | cons fkey rest =>
      rw [goFkeys_cons] at h
      by_cases ht : traversable (st fkey.ftable_oid).action = true
      · rw [if_pos ht] at h
        have hoid : (promoteFm fkey (st fkey.ftable_oid)).obj.oid = fkey.ftable_oid := by
          rw [promoteFm_obj]
          exact hwf fkey.ftable_oid ht
        have hevol1 : ∀ oid, MatchEvol (st oid)
            (updAt st fkey.ftable_oid (promoteFm fkey (st fkey.ftable_oid)) oid) :=
          updAt_evol (promoteFm_evol fkey _ ht)
        have hwf1 : WfSt (updAt st fkey.ftable_oid (promoteFm fkey (st fkey.ftable_oid))) :=
          wfSt_of_evol hwf hevol1
        have hne1 : ((updAt st fkey.ftable_oid (promoteFm fkey (st fkey.ftable_oid)))
            fkey.ftable_oid).action ≠ .unknown := by
          rw [updAt_self]
          exact promoteFm_action_ne_unknown fkey _
        by_cases hseen : (promoteFm fkey (st fkey.ftable_oid)).obj.oid ∈ seen
        · rw [if_pos hseen] at h
          have h3 : goFkeys db fuel (updAt st fkey.ftable_oid (promoteFm fkey (st fkey.ftable_oid)))
              seen rest = some (st', seen') := h
          obtain ⟨e1, e2, e3, e4, e5⟩ := ih _ _ _ _ _ hwf1 h3
          refine ⟨fun oid => matchEvol_trans (hevol1 oid) (e1 oid), e2, ?_, e4, ?_⟩
          · intro fk hfk
            rcases List.mem_cons.mp hfk with he | hm
            · subst he
              refine ⟨evol_ne_unknown (e1 fk.ftable_oid) hne1, fun _ => ?_⟩
              apply (e1 fk.ftable_oid).2.2.2.2
              rw [updAt_self]
              exact promoteFm_mem fk _
            · exact e3 fk hm
          · intro oid hch
            by_cases hc1 : (st' oid).action
                = ((updAt st fkey.ftable_oid (promoteFm fkey (st fkey.ftable_oid))) oid).action
            · have hok : oid = fkey.ftable_oid := by
                by_contra hno
                rw [hc1, updAt_other st _ _ oid hno] at hch
                exact hch rfl
              subst hok
              exact e2 _ (hoid ▸ hseen)
            · exact e5 oid hc1
        · rw [if_neg hseen] at h
          cases hdesc : goFkeys db fuel
              (updAt st fkey.ftable_oid (promoteFm fkey (st fkey.ftable_oid)))
              ((promoteFm fkey (st fkey.ftable_oid)).obj.oid :: seen)
              (promoteFm fkey (st fkey.ftable_oid)).obj.fkeys with
          | none =>
            rw [hdesc] at h
            exact Option.noConfusion h
          | some p =>
            obtain ⟨st2, seen2⟩ := p
            rw [hdesc] at h
            obtain ⟨d1, d2, d3, d4, d5⟩ := ih _ _ _ _ _ hwf1 hdesc
            have hwf2 : WfSt st2 := wfSt_of_evol hwf1 d1
            obtain ⟨e1, e2, e3, e4, e5⟩ := ih _ _ _ _ _ hwf2 h
            have hevolAll : ∀ oid, MatchEvol (st oid) (st' oid) := fun oid =>
              matchEvol_trans (hevol1 oid) (matchEvol_trans (d1 oid) (e1 oid))
            have hsub : ∀ oid ∈ seen, oid ∈ seen' := fun oid hm =>
              e2 oid (d2 oid (List.mem_cons_of_mem _ hm))
            have hroot : (promoteFm fkey (st fkey.ftable_oid)).obj.oid ∈ seen' :=
              e2 _ (d2 _ (List.mem_cons_self _ _))
            have hdoneRoot : DoneAt st' fkey.ftable_oid := by
              intro fk hfk
              have hobj2 : (st' fkey.ftable_oid).obj
                  = (promoteFm fkey (st fkey.ftable_oid)).obj := by
                rw [(e1 fkey.ftable_oid).1, (d1 fkey.ftable_oid).1, updAt_self]
              rw [hobj2] at hfk
              obtain ⟨hd1, hd2p⟩ := d3 fk hfk
              refine ⟨evol_ne_unknown (e1 fk.ftable_oid) hd1, fun htv => ?_⟩
              have htv2 : traversable (st2 fk.ftable_oid).action = true := by
                rw [← evol_traversable (e1 fk.ftable_oid)]
                exact htv
              exact (e1 fk.ftable_oid).2.2.2.2 (hd2p htv2)
            refine ⟨hevolAll, hsub, ?_, ?_, ?_⟩
            · intro fk hfk
              rcases List.mem_cons.mp hfk with he | hm
              · subst he
                refine ⟨evol_ne_unknown (e1 fk.ftable_oid)
                  (evol_ne_unknown (d1 fk.ftable_oid) hne1), fun _ => ?_⟩
                apply (e1 fk.ftable_oid).2.2.2.2
                apply (d1 fk.ftable_oid).2.2.2.2
                rw [updAt_self]
                exact promoteFm_mem fk _
              · exact e3 fk hm
            · intro oid hm
              rcases e4 oid hm with hm2 | hd
              · rcases d4 oid hm2 with hm3 | hd2
                · rcases List.mem_cons.mp hm3 with he | hm4
                  · subst he
                    rw [hoid]
                    exact Or.inr hdoneRoot
                  · exact Or.inl hm4
                · exact Or.inr (doneAt_evol e1 hd2)
              · exact Or.inr hd
            · intro oid hch
              by_cases hc1 : (st' oid).action = (st2 oid).action
              · by_cases hc2 : (st2 oid).action
                    = ((updAt st fkey.ftable_oid (promoteFm fkey (st fkey.ftable_oid))) oid).action
                · have hok : oid = fkey.ftable_oid := by
                    by_contra hno
                    rw [hc1, hc2, updAt_other st _ _ oid hno] at hch
                    exact hch rfl
                  subst hok
                  exact hoid ▸ hroot
                · exact e2 oid (d5 oid hc2)
              · exact e5 oid hc1
      · rw [if_neg ht] at h
        obtain ⟨e1, e2, e3, e4, e5⟩ := ih _ _ _ _ _ hwf h
        refine ⟨e1, e2, ?_, e4, e5⟩
        intro fk hfk
        rcases List.mem_cons.mp hfk with he | hm
        · subst he
          have hne : (st fk.ftable_oid).action ≠ .unknown := by
            intro hu
            rw [hu] at ht
            exact ht rfl
          refine ⟨evol_ne_unknown (e1 fk.ftable_oid) hne, fun htv => ?_⟩
          exfalso
          apply ht
          rw [← evol_traversable (e1 fk.ftable_oid)]
          exact htv
        · exact e3 fk hm

theorem passA_fold (db : Db) (fuelA : Nat) (st0 : Nat → RuleMatch)
    (hobj : ∀ o ∈ db.objects, (st0 o.oid).obj = o) :
    ∀ objs : List DbObject, (∀ o ∈ objs, o ∈ db.objects) → ∀ st stF,
    WfSt st → (∀ oid, MatchEvol (st0 oid) (st oid)) →
    (∀ oid, (st oid).action ≠ (st0 oid).action → DoneAt st oid) →
    objs.foldlM (fun st obj =>
      if obj.kind.isTable && ((st obj.oid).action == .dump || (st obj.oid).action == .ref) then
        (addReferredTables db fuelA st obj []).map (fun r => r.1)
      else some st) st = some stF →
    WfSt stF ∧ (∀ oid, MatchEvol (st oid) (stF oid))
      ∧ (∀ oid, (stF oid).action ≠ (st0 oid).action → DoneAt stF oid)
      ∧ (∀ o ∈ objs, o.kind.isTable = true →
          ((stF o.oid).action = .dump ∨ (stF o.oid).action = .ref) → DoneAt stF o.oid) := by
  intro objs
  induction objs with
  | nil =>
    intro hsub st stF hwf hevol hch h
    have h2 : some st = some stF := h
    obtain rfl := Option.some.inj h2
    exact ⟨hwf, fun _ => matchEvol_refl _, hch,
      fun o ho => absurd ho (List.not_mem_nil _)⟩
  | cons a objs ihl =>
    intro hsub st stF hwf hevol hch h
    rw [List.foldlM_cons] at h
    have hobjA : (st a.oid).obj = a := by
      rw [(hevol a.oid).1]
      exact hobj a (hsub a (List.mem_cons_self _ _))
    by_cases hcond : (a.kind.isTable
        && ((st a.oid).action == Action.dump || (st a.oid).action == Action.ref)) = true
    · rw [if_pos hcond] at h
      cases hseed : addReferredTables db fuelA st a [] with
      | none =>
        rw [hseed] at h
        exact Option.noConfusion h
      | some p =>
        obtain ⟨st1, seen1⟩ := p
        rw [hseed] at h
        have h2 : objs.foldlM (fun st obj =>
            if obj.kind.isTable
                && ((st obj.oid).action == .dump || (st obj.oid).action == .ref) then
              (addReferredTables db fuelA st obj []).map (fun r => r.1)
            else some st) st1 = some stF := h
        have hgo : goFkeys db fuelA st [a.oid] a.fkeys = some (st1, seen1) := hseed
        obtain ⟨g1, g2, g3, g4, g5⟩ := goFkeys_main db fuelA st [a.oid] a.fkeys st1 seen1 hwf hgo
        have hdoneA : DoneAt st1 a.oid := by
          intro fk hfk
          rw [(g1 a.oid).1, hobjA] at hfk
          exact g3 fk hfk
        have hch1 : ∀ oid, (st1 oid).action ≠ (st0 oid).action → DoneAt st1 oid := by
          intro oid hchd
          by_cases hc1 : (st1 oid).action = (st oid).action
          · rw [hc1] at hchd
            exact doneAt_evol g1 (hch oid hchd)
          · rcases g4 oid (g5 oid hc1) with hm | hd
            · have : oid = a.oid := by simpa using hm
              subst this
              exact hdoneA
            · exact hd
        obtain ⟨f1, f2, f3, f4⟩ := ihl (fun o ho => hsub o (List.mem_cons_of_mem _ ho))
          st1 stF (wfSt_of_evol hwf g1)
          (fun oid => matchEvol_trans (hevol oid) (g1 oid)) hch1 h2
        refine ⟨f1, fun oid => matchEvol_trans (g1 oid) (f2 oid), f3, ?_⟩
        intro o ho hot hact
        rcases List.mem_cons.mp ho with he | hm
        · subst he
          exact doneAt_evol f2 hdoneA
        · exact f4 o hm hot hact
    · rw [if_neg hcond] at h
      have h2 : objs.foldlM (fun st obj =>
          if obj.kind.isTable
              && ((st obj.oid).action == .dump || (st obj.oid).action == .ref) then
            (addReferredTables db fuelA st obj []).map (fun r => r.1)
          else some st) st = some stF := h
      obtain ⟨f1, f2, f3, f4⟩ := ihl (fun o ho => hsub o (List.mem_cons_of_mem _ ho))
        st stF hwf hevol hch h2
      refine ⟨f1, f2, f3, ?_⟩
      intro o ho hot hact
      rcases List.mem_cons.mp ho with he | hm
      · subst he
        have hnot : (st o.oid).action ≠ Action.dump ∧ (st o.oid).action ≠ Action.ref := by
          rw [hot] at hcond
          simpa using hcond
        rcases hact with hd | hr
        · rcases (f2 o.oid).2.1 with heq | ⟨hu, hrf⟩
          · rw [hd] at heq
            exact absurd heq.symm hnot.1
          · rw [hd] at hrf
            exact absurd hrf (by simp)
        · have hu : (st o.oid).action = .unknown := by
            rcases (f2 o.oid).2.1 with heq | ⟨hu, _⟩
            · rw [hr] at heq
              exact absurd heq.symm hnot.2
            · exact hu
          have hu0 : (st0 o.oid).action = .unknown := by
            rcases (hevol o.oid).2.1 with heq | ⟨hu0, _⟩
            · rw [← heq]
              exact hu
            · exact hu0
          exact f3 o.oid (by rw [hr, hu0]; simp)
      · exact f4 o hm hot hact

theorem passA_spec (db : Db) (st0 stA : Nat → RuleMatch)
    (hwf0 : WfSt st0) (hobj : ∀ o ∈ db.objects, (st0 o.oid).obj = o)
    (h : passA db db.fuelA st0 = some stA) :
    (∀ oid, MatchEvol (st0 oid) (stA oid))
      ∧ (∀ o ∈ db.objects, o.kind.isTable = true →
          ((stA o.oid).action = .dump ∨ (stA o.oid).action = .ref) → DoneAt stA o.oid) := by
  have h2 : db.objects.foldlM (fun st obj =>
      if obj.kind.isTable && ((st obj.oid).action == .dump || (st obj.oid).action == .ref) then
        (addReferredTables db db.fuelA st obj []).map (fun r => r.1)
      else some st) st0 = some stA := h
  obtain ⟨f1, f2, f3, f4⟩ := passA_fold db db.fuelA st0 hobj db.objects (fun _ ho => ho)
    st0 stA hwf0 (fun _ => matchEvol_refl _) (fun oid hch => absurd rfl hch) h2
  exact ⟨f2, f4⟩

theorem getMatch_shape (rules : List DumpRule) (obj : DbObject) (m : RuleMatch)
    (h : getMatch rules obj = .ok m) : m.obj = obj ∧ m.referenced_by = [] := by
  unfold getMatch at h
  by_cases hext : (obj.extension.isSome && obj.extcondition.isNone) = true
  · rw [if_pos hext] at h
    rw [← Except.ok.inj h]
    exact ⟨rfl, rfl⟩
  · rw [if_neg hext] at h
    cases hsort : sortByScoreDesc (rules.filter fun r => r.applies obj) with
    | nil =>
      rw [hsort] at h
      rw [← Except.ok.inj h]
      exact ⟨rfl, rfl⟩
    | cons r0 rs =>
      cases rs with
      | nil =>
        rw [hsort] at h
        rw [← Except.ok.inj h]
        exact ⟨rfl, rfl⟩
      | cons r1 rs2 =>
        rw [hsort] at h
        have h2 : (if r0.score = r1.score then Except.error (ambiguousMsg obj r0 r1)
            else Except.ok (RuleMatch.from_rule obj r0)) = Except.ok m := h
        by_cases hsc : r0.score = r1.score
        · rw [if_pos hsc] at h2
          exact Except.noConfusion h2
        · rw [if_neg hsc] at h2
          rw [← Except.ok.inj h2]
          exact ⟨rfl, rfl⟩

theorem initMatches_fold (rules : List DumpRule) :
    ∀ objs : List DbObject, ∀ st stF : Nat → RuleMatch,
    objs.foldlM (fun st obj =>
        match getMatch rules obj with
        | .error e => Except.error e
        | .ok m => Except.ok (updAt st obj.oid m)) st = .ok stF →
    (∀ oid, stF oid = st oid ∨ ∃ o ∈ objs, o.oid = oid ∧ getMatch rules o = .ok (stF oid))
      ∧ (∀ o ∈ objs, ∃ o2 ∈ objs, o2.oid = o.oid ∧ getMatch rules o2 = .ok (stF o.oid)) := by
  intro objs
  induction objs with
  | nil =>
    intro st stF h
    have h2 : (Except.ok st : Except String (Nat → RuleMatch)) = Except.ok stF := h
    obtain rfl := Except.ok.inj h2
    exact ⟨fun _ => Or.inl rfl, fun o ho => absurd ho (List.not_mem_nil _)⟩
  | cons a objs ihl =>
    intro st stF h
    rw [List.foldlM_cons] at h
    cases hga : getMatch rules a with
    | error e =>
      rw [hga] at h
      exact Except.noConfusion h
    | ok m =>
      rw [hga] at h
      have h2 : objs.foldlM (fun st obj =>
          match getMatch rules obj with
          | .error e => Except.error e
          | .ok m => Except.ok (updAt st obj.oid m)) (updAt st a.oid m) = .ok stF := h
      obtain ⟨p1, p2⟩ := ihl (updAt st a.oid m) stF h2
      have hAt : stF a.oid = m ∨ ∃ o ∈ objs, o.oid = a.oid ∧ getMatch rules o = .ok (stF a.oid) := by
        rcases p1 a.oid with he | hex
        · rw [he, updAt_self]
          exact Or.inl rfl
        · exact Or.inr hex
      refine ⟨?_, ?_⟩
      · intro oid
        rcases p1 oid with he | ⟨o, ho, hoid, hok⟩
        · by_cases ha : oid = a.oid
          · subst ha
            rw [he, updAt_self]
            exact Or.inr ⟨a, List.mem_cons_self _ _, rfl, hga⟩
          · rw [he, updAt_other st _ _ oid ha]
            exact Or.inl rfl
        · exact Or.inr ⟨o, List.mem_cons_of_mem _ ho, hoid, hok⟩
      · intro o ho
        rcases List.mem_cons.mp ho with he | hm
        · subst he
          rcases hAt with he2 | ⟨o2, ho2, hoid2, hok2⟩
          · exact ⟨o, List.mem_cons_self _ _, rfl, by rw [he2]; exact hga⟩
          · exact ⟨o2, List.mem_cons_of_mem _ ho2, hoid2, hok2⟩
        · obtain ⟨o2, ho2, hoid2, hok2⟩ := p2 o hm
          exact ⟨o2, List.mem_cons_of_mem _ ho2, hoid2, hok2⟩

theorem initMatches_spec (db : Db) (rules : List DumpRule) (st0 : Nat → RuleMatch)
    (hnodup : (db.objects.map (fun o => o.oid)).Nodup)
    (h : initMatches db rules = .ok st0) :
    WfSt st0 ∧ (∀ o ∈ db.objects, (st0 o.oid).obj = o)
      ∧ (∀ oid, (st0 oid).referenced_by = []) := by
  have h2 : db.objects.foldlM (fun st obj =>
      match getMatch rules obj with
      | .error e => Except.error e
      | .ok m => Except.ok (updAt st obj.oid m)) (fun _ : Nat => dummyMatch) = .ok st0 := h
  obtain ⟨p1, p2⟩ := initMatches_fold rules db.objects (fun _ : Nat => dummyMatch) st0 h2
  refine ⟨?_, ?_, ?_⟩
  · intro oid ht
    rcases p1 oid with he | ⟨o, ho, hoid, hok⟩
    · rw [he] at ht
      simp [dummyMatch, traversable] at ht
    · rw [(getMatch_shape rules o _ hok).1, hoid]
  · intro o ho
    obtain ⟨o2, ho2, hoid2, hok2⟩ := p2 o ho
    have hobj2 := (getMatch_shape rules o2 _ hok2).1
    have : o2 = o := List.inj_on_of_nodup_map hnodup ho2 ho hoid2
    rw [hobj2, this]
  · intro oid
    rcases p1 oid with he | ⟨o, ho, hoid, hok⟩
    · rw [he]
      rfl
    · exact (getMatch_shape rules o _ hok).2

theorem stepB_pointwise (db : Db) (st : Nat → RuleMatch) (a : DbObject) (oid : Nat) :
    stepB db st a oid = st oid
      ∨ ((st oid).action = .unknown ∧ (a.kind == Kind.sequence) = true ∧ a.oid = oid
          ∧ stepB db st a oid = { obj := a, action := .ref }) := by
  unfold stepB
  by_cases hc : (a.kind == Kind.sequence && (st a.oid).action == Action.unknown) = true
  · rw [if_pos hc]
    have hands := hc
    rw [Bool.and_eq_true] at hands
    have hseq : (a.kind == Kind.sequence) = true := hands.1
    have hunk : (st a.oid).action = .unknown := by simpa using hands.2
    cases hdep : getSequenceDependencyMatch st a (db.getTablesUsingSequence a.oid) with
    | none => exact Or.inl rfl
    | some m =>
      have hm : m = { obj := a, action := Action.ref } := by
        unfold getSequenceDependencyMatch at hdep
        split at hdep
        · exact (Option.some.inj hdep).symm
        · exact Option.noConfusion hdep
      dsimp only
      by_cases he : oid = a.oid
      · subst he
        rw [updAt_self, hm]
        exact Or.inr ⟨hunk, hseq, rfl, rfl⟩
      · rw [updAt_other st _ _ oid (fun hx => he hx)]
        exact Or.inl rfl
  · rw [if_neg hc]
    exact Or.inl rfl

theorem passB_pointwise (db : Db) :
    ∀ objs : List DbObject, ∀ st : Nat → RuleMatch, ∀ oid : Nat,
    (List.foldl (stepB db) st objs) oid = st oid
      ∨ ((st oid).action = .unknown ∧ ∃ o ∈ objs, (o.kind == Kind.sequence) = true ∧ o.oid = oid
          ∧ (List.foldl (stepB db) st objs) oid = { obj := o, action := .ref }) := by
  intro objs
  induction objs with
  | nil =>
    intro st oid
    exact Or.inl rfl
  | cons a objs ihl =>
    intro st oid
    rw [List.foldl_cons]
    rcases ihl (stepB db st a) oid with h1 | ⟨hu, o, ho, hk, hoid, hval⟩
    · rw [h1]
      rcases stepB_pointwise db st a oid with h2 | ⟨hu, hk, hoid, hval⟩
      · exact Or.inl h2
      · exact Or.inr ⟨hu, a, List.mem_cons_self _ _, hk, hoid, hval⟩
    · have hst : (st oid).action = .unknown := by
        rcases stepB_pointwise db st a oid with h2 | ⟨hu2, hk2, hoid2, hval2⟩
        · rw [h2] at hu
          exact hu
        · rw [hval2] at hu
          exact absurd hu (by simp)
      exact Or.inr ⟨hst, o, List.mem_cons_of_mem _ ho, hk, hoid, hval⟩

/-- Claim C1: after a completed `find_matches`, starting from any table of
the graph whose final action is `dump`, every table reachable from it by
following outbound foreign keys (passing only through `dump`/`ref` tables,
since `skip` and `error` are never traversed through) has a final action
other than `unknown`, and a reached table whose initial action was `unknown`
was promoted to `ref`; each foreign key of a reached `dump`/`ref` table is
recorded in (is a member of) the `referenced_by` referrers list of its
non-terminal target, so in particular the causing foreign key of every
traversal step; a match whose initial action is `skip` or `error` is left
entirely unchanged; and the `referenced_by` lists, which grow only by
appending fkeys not yet present, stay duplicate-free. -/
theorem find_matches_fkey_closure (db : Db) (rules : List DumpRule)
    (st0 final : Nat → RuleMatch)
    (hnodup : (db.objects.map (fun o => o.oid)).Nodup)
    (h0 : initMatches db rules = .ok st0)
    (hf : findMatches db rules = .ok (some final)) :
    (∀ t ∈ db.objects, t.kind.isTable = true → (final t.oid).action = .dump →
      ∀ u, ReachDR db final t u →
        (final u.oid).action ≠ .unknown
          ∧ ((st0 u.oid).action = .unknown → (final u.oid).action = .ref)
          ∧ (((final u.oid).action = .dump ∨ (final u.oid).action = .ref) →
              ∀ fk ∈ u.fkeys, ∀ w ∈ db.objects, w.kind.isTable = true →
                w.oid = fk.ftable_oid →
                (final w.oid).action ≠ .skip → (final w.oid).action ≠ .error →
                fk ∈ (final w.oid).referenced_by))
      ∧ (∀ oid, (st0 oid).action = .skip ∨ (st0 oid).action = .error → final oid = st0 oid)
      ∧ (∀ oid, (final oid).referenced_by.Nodup) := by
  obtain ⟨hwf0, hobj0, hrb0⟩ := initMatches_spec db rules st0 hnodup h0
  have hkey : findMatches db rules
      = Except.ok ((passA db db.fuelA st0).map (passB db)) := by
    unfold findMatches
    rw [h0]
  rw [hkey] at hf
  have hmap : (passA db db.fuelA st0).map (passB db) = some final := Except.ok.inj hf
  obtain ⟨stA, hA, hB⟩ := Option.map_eq_some'.mp hmap
  obtain ⟨hevolA, hdoneA⟩ := passA_spec db st0 stA hwf0 hobj0 hA
  have hfin : ∀ oid, final oid = List.foldl (stepB db) stA db.objects oid := by
    intro oid
    rw [← hB]
    rfl
  have hinv : ∀ u ∈ db.objects, u.kind.isTable = true → final u.oid = stA u.oid := by
    intro u hu hut
    rw [hfin u.oid]
    rcases passB_pointwise db db.objects stA u.oid with he | ⟨_, o, ho, hk, hoid, _⟩
    · exact he
    · have hko : o.kind = Kind.sequence := by simpa using hk
      have : o = u := List.inj_on_of_nodup_map hnodup ho hu hoid
      rw [this] at hko
      rw [hko] at hut
      simp [Kind.isTable] at hut
  have hkeep : ∀ oid, (stA oid).action ≠ .unknown
      → List.foldl (stepB db) stA db.objects oid = stA oid := by
    intro oid hne
    rcases passB_pointwise db db.objects stA oid with he | ⟨hu, _⟩
    · exact he
    · exact absurd hu hne
  have hneB : ∀ oid, (stA oid).action ≠ .unknown
      → (List.foldl (stepB db) stA db.objects oid).action ≠ .unknown := by
    intro oid hne
    rw [hkeep oid hne]
    exact hne
  have hedge : ∀ u ∈ db.objects, u.kind.isTable = true →
      ((final u.oid).action = .dump ∨ (final u.oid).action = .ref) →
      ∀ fk ∈ u.fkeys, ∀ w ∈ db.objects, w.kind.isTable = true →
      w.oid = fk.ftable_oid →
      (final w.oid).action ≠ .skip → (final w.oid).action ≠ .error →
      fk ∈ (final w.oid).referenced_by := by
    intro u hu hut hact fk hfk w hw hwt hwoid hns hnerr
    have hfu : final u.oid = stA u.oid := hinv u hu hut
    have hact2 : (stA u.oid).action = .dump ∨ (stA u.oid).action = .ref := by
      rw [← hfu]
      exact hact
    have hdone := hdoneA u hu hut hact2
    have hobjA2 : (stA u.oid).obj = u := by
      rw [(hevolA u.oid).1]
      exact hobj0 u hu
    obtain ⟨h1, h2⟩ := hdone fk (by rw [hobjA2]; exact hfk)
    have hfw : final w.oid = stA w.oid := hinv w hw hwt
    have hsw : stA fk.ftable_oid = final w.oid := by
      rw [hfw, hwoid]
    have htv : traversable (stA fk.ftable_oid).action = true := by
      rw [hsw]
      cases hAct : (final w.oid).action
      · decide
      · exact absurd hAct hns
      · decide
      · exact absurd hAct hnerr
      · decide
    have hm := h2 htv
    rw [hsw] at hm
    exact hm
  refine ⟨?_, ?_, ?_⟩
  · intro t ht htk hdump u hreach
    induction hreach with
    | refl =>
      refine ⟨by rw [hdump]; simp, ?_, hedge t ht htk⟩
      intro hunk
      exfalso
      have h1 : final t.oid = stA t.oid := hinv t ht htk
      rcases (hevolA t.oid).2.1 with heq | ⟨_, hrf⟩
      · rw [h1, heq, hunk] at hdump
        exact Action.noConfusion hdump
      · rw [h1, hrf] at hdump
        exact Action.noConfusion hdump
    | step u v fk hru hu hut huact hfk hv hvt hvoid ih =>
      have hfu : final u.oid = stA u.oid := hinv u hu hut
      have hact2 : (stA u.oid).action = .dump ∨ (stA u.oid).action = .ref := by
        rw [← hfu]
        exact huact
      have hdone := hdoneA u hu hut hact2
      have hobjA : (stA u.oid).obj = u := by
        rw [(hevolA u.oid).1]
        exact hobj0 u hu
      have hneA : (stA fk.ftable_oid).action ≠ .unknown :=
        (hdone fk (by rw [hobjA]; exact hfk)).1
      have hnef : (final v.oid).action ≠ .unknown := by
        rw [hvoid, hfin fk.ftable_oid]
        exact hneB fk.ftable_oid hneA
      refine ⟨hnef, ?_, hedge v hv hvt⟩
      intro hunk
      have hfv : final v.oid = stA v.oid := hinv v hv hvt
      rcases (hevolA v.oid).2.1 with heq | ⟨_, hrf⟩
      · exfalso
        apply hnef
        rw [hfv, heq, hunk]
      · rw [hfv, hrf]
  · intro oid hse
    have htrav : traversable (st0 oid).action = false := by
      rcases hse with h1 | h1
      · rw [h1]
        rfl
      · rw [h1]
        rfl
    have hfrozen : stA oid = st0 oid := (hevolA oid).2.2.2.1 htrav
    have hne : (stA oid).action ≠ .unknown := by
      rw [hfrozen]
      rcases hse with h1 | h1
      · rw [h1]
        simp
      · rw [h1]
        simp
    rw [hfin oid, hkeep oid hne, hfrozen]
  · intro oid
    have hnA : (stA oid).referenced_by.Nodup := by
      apply (hevolA oid).2.2.1
      rw [hrb0 oid]
      exact List.nodup_nil
    rw [hfin oid]
    rcases passB_pointwise db db.objects stA oid with he | ⟨_, o, _, _, _, hval⟩
    · rw [he]
      exact hnA
    · rw [hval]
      exact List.nodup_nil

/-- Claim C1 witness: in the cyclic graph `ta → tb → ta` with only `ta`
dumped by rule, `tb` is reached through the fkey `ta.bid → tb.id`, ends
with action `ref` promoted from its initial `unknown`, and that causing
fkey is a member of its `referenced_by` referrers list. -/
theorem find_matches_fkey_closure_witness :
    ((cDb.objects.map (fun o => o.oid)).Nodup
        ∧ initMatches cDb [c1Rule] = .ok c1St0
        ∧ findMatches cDb [c1Rule] = .ok (some c1Final))
      ∧ (c1Final cTB.oid).action = .ref
      ∧ fkAB ∈ (c1Final cTB.oid).referenced_by :=
  ⟨⟨by decide, rfl, rfl⟩, by
    have h := (find_matches_fkey_closure cDb [c1Rule] c1St0 c1Final (by decide) rfl rfl).1
      cTA (by decide) (by decide) (by decide) cTB
      (ReachDR.step cTA cTB fkAB ReachDR.refl (by decide) (by decide)
        (Or.inl (by decide)) (by decide) (by decide) (by decide) (by decide))
    exact h.2.1 (by decide), by
    have h2 := (find_matches_fkey_closure cDb [c1Rule] c1St0 c1Final (by decide) rfl rfl).1
      cTA (by decide) (by decide) (by decide) cTA ReachDR.refl
    exact h2.2.2 (Or.inl (by decide)) fkAB (by decide) cTB (by decide) (by decide)
      (by decide) (by decide) (by decide)⟩

end Seldump
